import Mathlib

/-!
Verification development for the wet-cat-food price-tracking scraper.

This file gives a shallow embedding, in Lean 4, of the price-extraction,
classification, pagination and product-matching logic of the repository
(`scraper.py`, `services/deal_service.py`, `bot/formatter.py`,
`database.py`), and proves or refutes the frozen specification claims
about it.

Modelling conventions:
* Python strings are modelled as `List Char`; Python `float` prices are
  modelled as exact rationals `ℚ` (the numeric claims under study are not
  about binary floating-point artefacts).  `round(x, 2)` is modelled by
  `round2`, which implements Python's round-half-to-even exactly.
* `Optional[float]` fields become `Option ℚ`; Python truthiness of such a
  field (`if x:`) is `truthy` (`none` and `some 0` are falsy).
* Regex scans over product text are embedded as explicit character-list
  scanners implementing the same pattern semantics (leftmost match,
  greedy digit runs) over the ASCII alphabet; `re` character classes such
  as `[^a-z0-9]` are modelled literally.  (Python's `\b`/`\w` also treat
  non-ASCII letters as word characters; the names quantified over here
  are treated with the ASCII reading, which coincides with Python on all
  ASCII text.)
* Async generators (`yield chunk`) are modelled as pure functions from
  the list of fetched-and-parsed pages to the list of emitted chunks;
  network fetching, HTML parsing into field values, and DOM selection are
  the inputs of the model, carried by per-adapter "tile" structures whose
  fields are the values the corresponding regexes/selectors produce.
-/

/-- Python truthiness of an `Optional[float]`: `None` and `0.0` are falsy. -/
def truthy : Option ℚ → Bool
  | none => false
  | some q => q != 0

/-- Python `a or b` on two `Optional[float]` values (used for
`reduced_price_per_kg or original_price_per_kg`). -/
def orQ (a b : Option ℚ) : Option ℚ := if truthy a then a else b

/-- Python `round` to an integer: round-half-to-even (banker's rounding). -/
def pyRound (q : ℚ) : ℤ :=
  if q - (⌊q⌋ : ℚ) < 1/2 then ⌊q⌋
  else if 1/2 < q - (⌊q⌋ : ℚ) then ⌊q⌋ + 1
  else if ⌊q⌋ % 2 = 0 then ⌊q⌋ else ⌊q⌋ + 1

/-- Python `round(x, 2)`: banker's rounding to two decimal places. -/
def round2 (q : ℚ) : ℚ := (pyRound (q * 100) : ℚ) / 100

/-- A rational that is a whole number of cents (what `_parse_price` returns
on a `\d+,\d{2}` match, and what `round(x, 2)` produces). -/
def IsCent (q : ℚ) : Prop := ∃ n : ℤ, q = (n : ℚ) / 100

theorem pyRound_intCast (n : ℤ) : pyRound (n : ℚ) = n := by
  simp [pyRound]

theorem floor_le_pyRound (q : ℚ) : ⌊q⌋ ≤ pyRound q := by
  unfold pyRound
  split_ifs <;> omega

theorem pyRound_le_floor_add_one (q : ℚ) : pyRound q ≤ ⌊q⌋ + 1 := by
  unfold pyRound
  split_ifs <;> omega

theorem pyRound_eq_floor_of_frac_lt {q : ℚ} (h : q - (⌊q⌋ : ℚ) < 1/2) :
    pyRound q = ⌊q⌋ := by
  unfold pyRound
  simp only [if_pos h]

theorem pyRound_eq_floor_add_one_of_frac_gt {q : ℚ} (h : 1/2 < q - (⌊q⌋ : ℚ)) :
    pyRound q = ⌊q⌋ + 1 := by
  unfold pyRound
  rw [if_neg (not_lt.mpr (le_of_lt h)), if_pos h]

theorem pyRound_le_of_le {a b : ℚ} (h : a ≤ b) : pyRound a ≤ pyRound b := by
  have hfb : ⌊a⌋ ≤ ⌊b⌋ := Int.floor_le_floor h
  rcases eq_or_lt_of_le hfb with hfe | hflt
  · -- equal floors: compare fractional parts
    have hab : a - (⌊a⌋ : ℚ) ≤ b - (⌊b⌋ : ℚ) := by rw [← hfe]; linarith
    rcases lt_trichotomy (b - (⌊b⌋ : ℚ)) (1/2) with hb | hb | hb
    · have ha : a - (⌊a⌋ : ℚ) < 1/2 := lt_of_le_of_lt hab hb
      rw [pyRound_eq_floor_of_frac_lt ha, pyRound_eq_floor_of_frac_lt hb, hfe]
    · -- b exactly at the tie
      rcases lt_or_eq_of_le hab with ha | ha
      · rw [hb] at ha
        rw [pyRound_eq_floor_of_frac_lt ha]
        calc ⌊a⌋ = ⌊b⌋ := hfe
          _ ≤ pyRound b := floor_le_pyRound b
      · have : a = b := by
          have : a - (⌊a⌋ : ℚ) = b - (⌊b⌋ : ℚ) := ha
          rw [← hfe] at this
          linarith
        rw [this]
    · rw [pyRound_eq_floor_add_one_of_frac_gt hb]
      calc pyRound a ≤ ⌊a⌋ + 1 := pyRound_le_floor_add_one a
        _ = ⌊b⌋ + 1 := by rw [hfe]
  · calc pyRound a ≤ ⌊a⌋ + 1 := pyRound_le_floor_add_one a
      _ ≤ ⌊b⌋ := hflt
      _ ≤ pyRound b := floor_le_pyRound b

theorem round2_mono {a b : ℚ} (h : a ≤ b) : round2 a ≤ round2 b := by
  unfold round2
  have h1 : a * 100 ≤ b * 100 := by linarith
  have h2 := pyRound_le_of_le h1
  have h3 : (pyRound (a * 100) : ℚ) ≤ (pyRound (b * 100) : ℚ) := by exact_mod_cast h2
  linarith

theorem round2_cent_fix {q : ℚ} (h : IsCent q) : round2 q = q := by
  obtain ⟨n, rfl⟩ := h
  unfold round2
  have : ((n : ℚ) / 100) * 100 = (n : ℚ) := by ring
  rw [this, pyRound_intCast]

theorem round2_nonneg {q : ℚ} (h : 0 ≤ q) : 0 ≤ round2 q := by
  have h0 : round2 0 = 0 := round2_cent_fix ⟨0, by norm_num⟩
  have := round2_mono h
  rw [h0] at this
  exact this

theorem round2_isCent (q : ℚ) : IsCent (round2 q) := ⟨pyRound (q * 100), rfl⟩

/-! ### Character and substring utilities (`str.lower`, `in`, `re` scans) -/

/-- Python `str.lower()` (ASCII; the brand lists and keywords are ASCII). -/
def lowerStr (s : List Char) : List Char := s.map Char.toLower

/-- `needle` is a prefix of `hay`. -/
def prefixEq : List Char → List Char → Bool
  | [], _ => true
  | _ :: _, [] => false
  | a :: as, b :: bs => a == b && prefixEq as bs

/-- Python `needle in hay` substring containment. -/
def containsSub (hay needle : List Char) : Bool :=
  match hay with
  | [] => prefixEq needle []
  | _ :: t => prefixEq needle hay || containsSub t needle

/-- The regex character class `[a-z0-9]` (used in `_extract_brand`'s
word-boundary pattern, which runs on lower-cased text). -/
def isAlnumLC (c : Char) : Bool := ('a' ≤ c && c ≤ 'z') || ('0' ≤ c && c ≤ '9')

/-- The regex class `\w` = `[a-zA-Z0-9_]` (ASCII reading). -/
def isWordChar (c : Char) : Bool := c.isAlpha || c.isDigit || c == '_'

/-- Maximal run of `\d+` digits at the head, and the remaining suffix. -/
def takeDigits : List Char → List Char × List Char
  | [] => ([], [])
  | c :: t =>
    if c.isDigit then
      let (d, r) := takeDigits t
      (c :: d, r)
    else ([], c :: t)

/-- Greedy `\s*`. -/
def skipSpaces : List Char → List Char
  | [] => []
  | c :: t => if c.isWhitespace then skipSpaces t else c :: t

/-- Numeric value of a run of decimal digits. -/
def natFromDigits (ds : List Char) : ℕ := ds.foldl (fun n c => 10 * n + (c.toNat - 48)) 0

/-- Word-boundary/`$` check for a position following a word character
(the `\b` after `g` in the size patterns). -/
def boundaryAfter (rest : List Char) : Bool := rest.isEmpty || !isWordChar (rest.headD ' ')

/-! ### Size/weight regex scanners (`_extract_size`, `_parse_weight_grams`) -/

/-- Match `(\d+)\s*x\s*(\d+)\s*g` (case-insensitive) at the head of `s`;
returns the two captured numbers and the suffix after the `g`. -/
def multiAt (s : List Char) : Option (ℕ × ℕ × List Char) :=
  let (d1, r1) := takeDigits s
  if d1.isEmpty then none else
  match skipSpaces r1 with
  | [] => none
  | x :: r3 =>
    if x.toLower == 'x' then
      let (d2, r5) := takeDigits (skipSpaces r3)
      if d2.isEmpty then none else
      match skipSpaces r5 with
      | [] => none
      | g :: r7 => if g.toLower == 'g' then some (natFromDigits d1, natFromDigits d2, r7) else none
    else none

/-- `re.search` for the multipack pattern: leftmost match, captured counts. -/
def findMulti : List Char → Option (ℕ × ℕ)
  | [] => none
  | c :: t =>
    match multiAt (c :: t) with
    | some (a, b, _) => some (a, b)
    | none => findMulti t

/-- Match `(\d+)\s*g(?:\b|$)` at the head of `s`. -/
def singleGAt (s : List Char) : Option ℕ :=
  let (d1, r1) := takeDigits s
  if d1.isEmpty then none else
  match skipSpaces r1 with
  | [] => none
  | g :: rest => if g.toLower == 'g' && boundaryAfter rest then some (natFromDigits d1) else none

/-- `re.search` for the single-weight pattern. -/
def findSingleG : List Char → Option ℕ
  | [] => none
  | c :: t =>
    match singleGAt (c :: t) with
    | some n => some n
    | none => findSingleG t

/-- Match `(\d+(?:[,\.]\d+)?)\s*kg` at the head of `s` (captured value as ℚ,
comma read as decimal point as in `_parse_price`). -/
def kgAt (s : List Char) : Option ℚ :=
  let (d1, r1) := takeDigits s
  if d1.isEmpty then none else
  let tryKg : ℚ → List Char → Option ℚ := fun v r =>
    match skipSpaces r with
    | k :: g :: _ => if k.toLower == 'k' && g.toLower == 'g' then some v else none
    | _ => none
  let withFrac : Option ℚ :=
    match r1 with
    | c :: r2 =>
      if c == ',' || c == '.' then
        let (d2, r3) := takeDigits r2
        if d2.isEmpty then none
        else tryKg ((natFromDigits d1 : ℚ) + (natFromDigits d2 : ℚ) / (10 : ℚ) ^ d2.length) r3
      else none
    | [] => none
  match withFrac with
  | some v => some v
  | none => tryKg (natFromDigits d1 : ℚ) r1

/-- `re.search` for the kilogram pattern. -/
def findKg : List Char → Option ℚ
  | [] => none
  | c :: t =>
    match kgAt (c :: t) with
    | some q => some q
    | none => findKg t

/-- `BaseScraper._parse_weight_grams`: multipack count×unit, else single
grams, else kilograms converted to grams (`int(kg * 1000)`). -/
def parseWeightGrams (name : List Char) : Option ℕ :=
  match findMulti name with
  | some (count, weight) => some (count * weight)
  | none =>
    match findSingleG name with
    | some w => some w
    | none =>
      match findKg name with
      | some kg => some (⌊kg * 1000⌋).toNat
      | none => none

/-- `BaseScraper._calculate_price_per_kg`. -/
def calculatePricePerKg (price : ℚ) (weightGrams : Option ℕ) : Option ℚ :=
  match weightGrams with
  | none => none
  | some w => if w = 0 then none else some (round2 (price / ((w : ℚ) / 1000)))

/-! ### `_extract_size` (returns the matched size text) -/

/-- Match `\d+\s*g` at the head; returns the suffix after the `g`. -/
def sizeGAt (s : List Char) : Option (List Char) :=
  let (d1, r1) := takeDigits s
  if d1.isEmpty then none else
  match skipSpaces r1 with
  | [] => none
  | g :: rest => if g.toLower == 'g' then some rest else none

/-- Match `\d+\s*kg` at the head; returns the suffix after the `kg`. -/
def sizeKgAt (s : List Char) : Option (List Char) :=
  let (d1, r1) := takeDigits s
  if d1.isEmpty then none else
  match skipSpaces r1 with
  | k :: g :: rest => if k.toLower == 'k' && g.toLower == 'g' then some rest else none
  | _ => none

/-- Match `\d+\s*ml` at the head; returns the suffix after the `ml`. -/
def sizeMlAt (s : List Char) : Option (List Char) :=
  let (d1, r1) := takeDigits s
  if d1.isEmpty then none else
  match skipSpaces r1 with
  | m :: l :: rest => if m.toLower == 'm' && l.toLower == 'l' then some rest else none
  | _ => none

/-- Leftmost match of an at-position matcher; returns the suffix where the
match starts together with the suffix after the match. -/
def findSpan (f : List Char → Option (List Char)) : List Char → Option (List Char × List Char)
  | [] => none
  | c :: t =>
    match f (c :: t) with
    | some rest => some (c :: t, rest)
    | none => findSpan f t

/-- The text a leftmost match covered. -/
def matchedSlice (p : List Char × List Char) : List Char := p.1.take (p.1.length - p.2.length)

/-- `BaseScraper._extract_size`: first of the four size patterns that
matches, returning the matched text. -/
def extractSize (name : List Char) : Option (List Char) :=
  match findSpan (fun s => (multiAt s).map (·.2.2)) name with
  | some p => some (matchedSlice p)
  | none =>
    match findSpan sizeGAt name with
    | some p => some (matchedSlice p)
    | none =>
      match findSpan sizeKgAt name with
      | some p => some (matchedSlice p)
      | none =>
        match findSpan sizeMlAt name with
        | some p => some (matchedSlice p)
        | none => none

/-! ### Brand lists and `_extract_brand` -/

/-- `BaseScraper.BRANDS` (the comprehensive extraction list). -/
def BRANDS : List String := [
  "Almo Nature", "Animonda", "Animonda Carny", "Animonda Integra Protect",
  "Applaws", "Bozita", "Catz Finefood", "Concept for Life", "Cosma",
  "Crave", "Dreamies", "Feringa", "Felix", "Gourmet", "Gourmet Gold",
  "Granatapet", "GRAU", "Happy Cat", "Hill's", "Hill's Pet Nutrition",
  "Hill's Prescription Diet", "Hill's Science Plan",
  "Kitty Cat", "Kattovit", "Leonardo", "Lily's Kitchen", "Lucky Lou",
  "MAC's", "Mera", "Miamor", "MjAMjAM", "My Star",
  "N&D", "Nutrivet", "Perfect Fit", "Porta 21", "Pro Plan", "Purina", "Purina ONE", "Purizon",
  "Rocco", "Rosie's Farm", "Royal Canin", "Royal Canin Veterinary",
  "Sanabelle", "Schesir", "Sheba", "Smilla",
  "Terra Faelis", "Thrive", "Tundra", "Venandi Animal", "Vitakraft", "Whiskas", "Wild Freedom", "Wildes Land",
  "zooplus Basics", "zooplus Bio",
  "Blink", "Canagan", "Cat's Love", "Cesar", "Encore", "GimCat", "Goood", "Greenies",
  "Josera", "Orijen", "Taste of the Wild", "Weruva", "Yarrah", "Ziwi Peak"]

/-- `BaseScraper.QUALITY_BRANDS` (always-scraped quality brands). -/
def QUALITY_BRANDS : List String := [
  "Leonardo", "MAC's", "Catz Finefood", "MjAMjAM", "Animonda",
  "Granatapet", "Wildes Land", "Applaws", "Lily's Kitchen", "Bozita",
  "Terra Faelis", "Venandi Animal", "Carnilove", "Schesir", "Almo Nature",
  "Lucky Lou", "Tundra", "Edgard & Cooper", "Cat's Love", "Hardys",
  "Defu", "The Goodstuff", "Pure Nature", "STRAYZ",
  "Wild Freedom", "Purizon", "Feringa", "KITTY Cat",
  "Miamor", "Sanabelle", "Happy Cat", "Royal Canin",
  "Kattovit", "Brit Care", "Josera"]

/-- Replace the apostrophe variants `´` (U+00B4), `’` (U+2019) and the
backtick (U+0060) by a plain apostrophe (U+0027). -/
def replApos (c : Char) : Char :=
  if c.val == 180 || c.val == 8217 || c.val == 96 then Char.ofNat 39 else c

/-- `BaseScraper.normalize_brand`: lower-case, then unify apostrophes. -/
def normalizeBrand (s : List Char) : List Char := (s.map Char.toLower).map replApos

/-- One position of the `_extract_brand` search pattern
`(?:^|\b|[^a-z0-9])BRAND(?:\b|[^a-z0-9]|$)`: the brand occurs at `i` and is
not embedded in a longer `[a-z0-9]` token.  (All brand names begin and end
with an ASCII letter or digit, so for them `^|\b|[^a-z0-9]` on the left is
exactly "start or previous character outside `[a-z0-9]`", and symmetrically
on the right.) -/
def brandMatchAt (name brand : List Char) (i : ℕ) : Bool :=
  prefixEq brand (name.drop i)
  && (i == 0 || !isAlnumLC (name.getD (i - 1) ' '))
  && (i + brand.length == name.length || !isAlnumLC (name.getD (i + brand.length) ' '))

/-- `re.search` of the word-boundary-safe brand pattern over the name. -/
def brandSearch (name brand : List Char) : Bool :=
  (List.range (name.length + 1)).any (brandMatchAt name brand)

/-- The brand list sorted longest-first (`sorted(self.BRANDS, key=len,
reverse=True)`; Python's sort is stable, as is insertion sort). -/
def sortedBrands : List String :=
  List.insertionSort (fun a b => b.length ≤ a.length) BRANDS

/-- `BaseScraper._extract_brand`. -/
def extractBrand (name : List Char) : Option String :=
  sortedBrands.find? (fun brand => brandSearch (normalizeBrand name) (normalizeBrand brand.data))

/-! ### Wet-food classification -/

/-- `BaseScraper.EXCLUDE_KEYWORDS`. -/
def EXCLUDE_KEYWORDS : List String := [
  "trockenfutter", "trocken", "dry", "kibble",
  "katzenstreu", "streu", "litter",
  "kratzbaum", "kratzmöbel", "spielzeug", "toy",
  "snacks", "leckerli", "treats", "sticks",
  "zubehör", "accessory", "napf", "bowl",
  "bürste", "kamm", "pflege", "shampoo",
  "halsband", "collar", "leine", "leash",
  "transport", "käfig", "korb"]

/-- `BaseScraper.WET_FOOD_KEYWORDS`. -/
def WET_FOOD_KEYWORDS : List String := [
  "nassfutter", "dose", "beutel", "pouch", "paté", "pate",
  "mousse", "ragout", "sauce", "gelee", "jelly", "brühe",
  "filet", "schale", "frischebeutel", "multipack"]

/-- Any of the keywords occurs as a substring. -/
def containsAnyKeyword (hay : List Char) (kws : List String) : Bool :=
  kws.any (fun k => containsSub hay k.data)

/-- Scan every position carrying the previous character (for patterns with
a leading `\b`). -/
def scanWithPrev (f : Option Char → List Char → Bool) : Option Char → List Char → Bool
  | prev, [] => f prev []
  | prev, c :: t => f prev (c :: t) || scanWithPrev f (some c) t

/-- `re.search(r'\d+\s*x\s*\d+\s*g\b', ...)`. -/
def hasMultiXgBoundary (s : List Char) : Bool :=
  scanWithPrev (fun _ t =>
    match multiAt t with
    | some (_, _, rest) => boundaryAfter rest
    | none => false) none s

/-- `re.search(r'\d+\s*x\s*\d+\s*g', ...)` (no trailing boundary). -/
def hasMultiXg (s : List Char) : Bool :=
  scanWithPrev (fun _ t => (multiAt t).isSome) none s

/-- Position test for `\b\d{2,3}\s*g\b`. -/
def d23At (prev : Option Char) (s : List Char) : Bool :=
  (match prev with
   | none => true
   | some c => !isWordChar c)
  && (let (d, r) := takeDigits s
      (d.length == 2 || d.length == 3)
      && (match skipSpaces r with
          | [] => false
          | g :: rest => g.toLower == 'g' && boundaryAfter rest))

/-- `re.search(r'\b\d{2,3}\s*g\b', ...)` (typical wet-food pack weights). -/
def hasD23gBoundary (s : List Char) : Bool := scanWithPrev d23At none s

/-- Position test for `\b\d+\s*g\b`. -/
def dgAt (prev : Option Char) (s : List Char) : Bool :=
  (match prev with
   | none => true
   | some c => !isWordChar c)
  && (let (d, r) := takeDigits s
      !d.isEmpty
      && (match skipSpaces r with
          | [] => false
          | g :: rest => g.toLower == 'g' && boundaryAfter rest))

/-- `re.search(r'\b\d+\s*g\b', ...)` (Zoo24's weight-pattern check). -/
def hasDgBoundary (s : List Char) : Bool := scanWithPrev dgAt none s

/-- `BaseScraper._is_wet_food` (used by the Zooplus and Bitiba adapters). -/
def isWetFoodBase (name url : List Char) : Bool :=
  let nameL := lowerStr name
  let urlL := lowerStr url
  let combined := nameL ++ ' ' :: urlL
  if containsAnyKeyword combined EXCLUDE_KEYWORDS then false
  else if containsSub urlL "/nassfutter".data then true
  else if containsAnyKeyword combined WET_FOOD_KEYWORDS then true
  else if hasMultiXgBoundary nameL then true
  else if hasD23gBoundary nameL then true
  else false

/-- `ZooroyalScraper._is_wet_food` (override: exclude-only, snack words). -/
def zooroyalIsWetFood (name : List Char) : Bool :=
  let nameL := lowerStr name
  if containsAnyKeyword nameL
      ["snack", "leckerli", "treat", "sticks", "dreamies", "knuspies"] then false
  else true

/-- `FressnapfScraper._is_wet_food` (override: exclude-only, snack and
dry-food words). -/
def fressnapfIsWetFood (name : List Char) : Bool :=
  let nameL := lowerStr name
  if containsAnyKeyword nameL
      ["snack", "leckerli", "treat", "sticks", "dreamies", "knuspies", "soup", "suppe"] then false
  else if containsAnyKeyword nameL ["trockenfutter", "trocken", "kibble"] then false
  else true

/-- `Zoo24Scraper._is_wet_food` (name only; no URL part). -/
def zoo24IsWetFood (name : List Char) : Bool :=
  let nameL := lowerStr name
  if containsAnyKeyword nameL EXCLUDE_KEYWORDS then false
  else if containsAnyKeyword nameL WET_FOOD_KEYWORDS then true
  else if hasMultiXg nameL then true
  else if hasDgBoundary nameL then true
  else false

/-! ### The normalized record (`ScrapedProduct`)

Only the fields the claims under study inspect are modelled; the purely
display-oriented fields (`name` cleanup, `size`, `sale_tag`,
`base_product_id`, `variant_name`) are outside every claim and omitted. -/

structure ScrapedProduct where
  externalId : List Char
  brand : Option (List Char)
  currentPrice : ℚ
  originalPrice : Option ℚ
  isOnSale : Bool
  url : List Char
  site : List Char
  weightGrams : Option ℕ
  originalPricePerKg : Option ℚ
  reducedPricePerKg : Option ℚ
deriving DecidableEq

/-! ### Site A/B (Zooplus/Bitiba) tile parser
(`BeautifulSoupScraper._parse_single_product`, scraper.py lines 451-600)

The tile fields are the values the card-text regexes produce:
`aboPrices` collects the four Abo patterns (a Python `set`, used only for
membership), `perKgPrices` the `(\d+,\d{2})\s*€\s*/\s*kg` matches in text
order, `allPrices` the `(\d+,\d{2})\s*€` matches in text order,
`discountPercent` the absolute value captured by the `Rabatt` badge regex,
and `mixpaketPrice` the explicit Mixpaket/Sparpaket price.  The
link/external-id extraction (lines 422-449) is not modelled; `externalId`,
`name` (after `_clean_product_name`) and `url` are inputs. -/

structure BSTile where
  externalId : List Char
  name : List Char
  url : List Char
  unavailable : Bool
  aboPrices : List ℚ
  perKgPrices : List ℚ
  discountPercent : Option ℕ
  perUnitPrices : List ℚ
  einzelnPrices : List ℚ
  uvpPrices : List ℚ
  mixpaketPrice : Option ℚ
  allPrices : List ℚ

/-- Membership in a parsed price set. -/
def memQ (p : ℚ) (l : List ℚ) : Bool := l.any (fun q => q == p)

/-- First per-kg price that is truthy and not an Abo price
(`for price_str in all_per_kg: if price and price not in abo_prices`). -/
def bsOrigPpk (t : BSTile) : Option ℚ :=
  t.perKgPrices.find? (fun p => p != 0 && !memQ p t.aboPrices)

/-- The reduced per-kg price derived from the discount badge
(set inside `if discount_match:`, guarded by `if original_price_per_kg:`). -/
def bsReducedPpk (t : BSTile) : Option ℚ :=
  match t.discountPercent with
  | some d =>
    match bsOrigPpk t with
    | some o => if o != 0 then some (round2 (o * (1 - (d : ℚ) / 100))) else none
    | none => none
  | none => none

/-- Candidate product prices: every euro amount not recognised as
per-unit, Einzeln, UVP or Abo (`actual_prices`). -/
def bsActualPrices (t : BSTile) : List ℚ :=
  t.allPrices.filter (fun p =>
    p != 0 && !memQ p t.perUnitPrices && !memQ p t.einzelnPrices
      && !memQ p t.uvpPrices && !memQ p t.aboPrices)

/-- The original/current pair before the discount override:
Mixpaket price wins as original (with no current), otherwise max/min of
the candidates (or the single candidate for both). -/
def bsPrices (t : BSTile) : Option ℚ × Option ℚ :=
  match t.mixpaketPrice with
  | some m =>
    if m != 0 then (some m, none)
    else bsPricesFromActual (bsActualPrices t)
  | none => bsPricesFromActual (bsActualPrices t)
where
  bsPricesFromActual : List ℚ → Option ℚ × Option ℚ
    | [] => (none, none)
    | [p] => (some p, some p)
    | p :: q :: rest =>
      (some ((q :: rest).foldl max p), some ((q :: rest).foldl min p))

/-- `BeautifulSoupScraper._parse_single_product`, from the price logic
onward. -/
def bsParse (site : List Char) (t : BSTile) : Option ScrapedProduct :=
  if t.name.length < 3 then none else
  if t.unavailable then none else
  let origPpk := bsOrigPpk t
  let reducedPpk := bsReducedPpk t
  let prices := bsPrices t
  let originalPrice := prices.1
  -- `if discount_percent and original_price:` recomputes the current price
  let currentAndSale : Option ℚ × Bool :=
    match t.discountPercent with
    | some d =>
      if d != 0 && truthy originalPrice then
        (some (round2 (originalPrice.getD 0 * (1 - (d : ℚ) / 100))), true)
      else (prices.2, false)
    | none => (prices.2, false)
  if !truthy currentAndSale.1 then none else
  if !isWetFoodBase t.name t.url then none else
  some { externalId := t.externalId
         brand := (extractBrand t.name).map String.data
         currentPrice := currentAndSale.1.getD 0
         originalPrice := originalPrice
         isOnSale := currentAndSale.2
         url := t.url
         site := site
         weightGrams := none
         originalPricePerKg := origPpk
         reducedPricePerKg := reducedPpk }

/-! ### Zoo24 tile parser (`Zoo24Scraper._parse_single_product`,
scraper.py lines 1850-1963)

`salePrice` is the parsed result of the `(\d+[.,]\d+)\s*€` match on the
`<sale-price>` text (`none` when the element is missing or the regex does
not match), `comparePrice` the parsed `<compare-at-price>` text (`none`
when missing, empty or unparsable), `unitPricePerKg` the parsed
`([\d.,]+)\s*€/kg` match on the `<unit-price>` text. -/

structure Zoo24Tile where
  handle : List Char
  hasProductLink : Bool
  urlHref : List Char
  name : List Char
  salePrice : Option ℚ
  comparePrice : Option ℚ
  unitPricePerKg : Option ℚ

/-- `if compare_price and compare_price > current_price:` (line 1892). -/
def zoo24OnSale (cp : ℚ) (compare : Option ℚ) : Bool :=
  match compare with
  | some op => op != 0 && cp < op
  | none => false

/-- The original price kept alongside the sale price (lines 1892-1895). -/
def zoo24OriginalPrice (cp : ℚ) (compare : Option ℚ) : ℚ :=
  match compare with
  | some op => if op != 0 && cp < op then op else cp
  | none => cp

/-- The (original, reduced) per-kg pair from the `unit-price` element:
the page-reported value is the current per-kg price, so on sale the
original per-kg is back-computed as `unit * (original/current)`
(lines 1900-1915). -/
def zoo24Pair (cp originalPrice : ℚ) (onSale : Bool) (unit : Option ℚ) :
    Option ℚ × Option ℚ :=
  if onSale && truthy unit then
    (if 0 < cp then some (round2 (unit.getD 0 * (originalPrice / cp)))
     else unit,
     unit)
  else (unit, none)

/-- `if not original_price_per_kg and weight_grams:` weight fallback
(lines 1923-1931). -/
def zoo24Pair2 (cp originalPrice : ℚ) (onSale : Bool) (weight : Option ℕ)
    (pair : Option ℚ × Option ℚ) : Option ℚ × Option ℚ :=
  if !truthy pair.1 && (weight.getD 0 != 0) then
    if onSale then
      (calculatePricePerKg originalPrice weight, calculatePricePerKg cp weight)
    else (calculatePricePerKg cp weight, pair.2)
  else pair

def zoo24Parse (t : Zoo24Tile) : Option ScrapedProduct :=
  if t.handle.isEmpty then none else
  if !t.hasProductLink then none else
  if t.name.isEmpty then none else
  if !zoo24IsWetFood t.name then none else
  match t.salePrice with
  | none => none
  | some cp =>
    if cp == 0 then none else
    let onSale := zoo24OnSale cp t.comparePrice
    let originalPrice := zoo24OriginalPrice cp t.comparePrice
    let weight := parseWeightGrams t.name
    let pair2 := zoo24Pair2 cp originalPrice onSale weight
      (zoo24Pair cp originalPrice onSale t.unitPricePerKg)
    some { externalId := "zoo24:".data ++ t.handle
           brand := (extractBrand t.name).map String.data
           currentPrice := cp
           originalPrice := some originalPrice
           isOnSale := onSale
           url := t.urlHref
           site := "zoo24".data
           weightGrams := weight
           originalPricePerKg := pair2.1
           reducedPricePerKg := pair2.2 }

/-! ### Fressnapf tile parser (`FressnapfScraper._parse_single_product`,
scraper.py lines 939-1048)

`priceParsed` is `_parse_price` of the regular-price element text (`none`
when the element is missing or parsing fails), `perKgParsed` the parsed
`([\d,]+)\s*€/kg` match of the per-unit element, `strikeParsed` the parsed
strike-price element text, and `badgeDiscount` the percentage of the first
discount badge whose text contains `%` and `-` and matches the badge
regex. -/

structure FressnapfTile where
  hasHeaderLink : Bool
  href : List Char
  brandText : Option (List Char)
  nameText : Option (List Char)
  priceParsed : Option ℚ
  perKgParsed : Option ℚ
  strikeParsed : Option ℚ
  badgeDiscount : Option ℕ

/-- The `-(\d+)/?$` product-id capture on the href. -/
def fressnapfIdFromHref (href : List Char) : Option (List Char) :=
  let r :=
    match href.reverse with
    | '/' :: t => t
    | t => t
  let p := List.span Char.isDigit r
  if p.1.isEmpty then none else
  match p.2 with
  | '-' :: _ => some p.1.reverse
  | _ => none

def fressnapfParse (t : FressnapfTile) : Option ScrapedProduct :=
  if !t.hasHeaderLink then none else
  if t.href.isEmpty || !containsSub t.href "/p/".data then none else
  let externalId : List Char :=
    match fressnapfIdFromHref t.href with
    | some idDigits => "fressnapf:".data ++ idDigits
    | none => "fressnapf:".data ++ t.href
  match t.nameText with
  | none => none
  | some name =>
    if name.isEmpty then none else
    match t.priceParsed with
    | none => none
    | some cp =>
      if cp == 0 then none else
      let origPpk := t.perKgParsed
      -- `if strike_price and strike_price > current_price:`
      let saleFromStrike : Bool :=
        match t.strikeParsed with
        | some sp => sp != 0 && cp < sp
        | none => false
      let originalPrice : ℚ :=
        match t.strikeParsed with
        | some sp => if sp != 0 && cp < sp then sp else cp
        | none => cp
      let onSale : Bool := saleFromStrike || t.badgeDiscount.isSome
      if !fressnapfIsWetFood name then none else
      let weight := parseWeightGrams name
      let redPpk : Option ℚ :=
        if onSale && (weight.getD 0 != 0) then calculatePricePerKg cp weight
        else none
      let brand : Option (List Char) :=
        match t.brandText with
        | some b => if b.isEmpty then (extractBrand name).map String.data else some b
        | none => (extractBrand name).map String.data
      some { externalId := externalId
             brand := brand
             currentPrice := cp
             originalPrice := some originalPrice
             isOnSale := onSale
             url := t.href
             site := "fressnapf".data
             weightGrams := weight
             originalPricePerKg := origPpk
             reducedPricePerKg := redPpk }

/-! ### Zooroyal tile converter (`ZooroyalScraper._convert_to_scraped_product`,
scraper.py lines 1466-1544)

`ariaPrice` is `_parse_aria_label_price` of the tile's aria-label,
`badgeDiscount` is `_parse_discount_from_badges` of the badge texts.
The URL-slug external-id extraction (lines 1405-1415) and the
sponsored-parameter URL cleanup are not modelled; `externalId` is an input.
Caveat: when the badge reports exactly `-100 %`, the Python code raises
`ZeroDivisionError` (no record is produced); the embedding is total, so
every theorem below hypothesises a discount below 100. -/

structure ZooroyalTile where
  externalId : List Char
  url : List Char
  name : List Char
  brandText : List Char
  sizeText : List Char
  ariaPrice : Option ℚ
  badgeDiscount : Option ℕ

def zooroyalConvert (t : ZooroyalTile) : Option ScrapedProduct :=
  if t.url.isEmpty then none else
  if t.name.isEmpty then none else
  -- `size = data.get('size', '') or self._extract_size(name)`
  let size : Option (List Char) :=
    if t.sizeText.isEmpty then extractSize t.name else some t.sizeText
  match t.ariaPrice with
  | none => none
  | some cp =>
    if cp == 0 then none else
    let onSale : Bool :=
      match t.badgeDiscount with
      | some d => d != 0
      | none => false
    let originalPrice : ℚ :=
      match t.badgeDiscount with
      | some d => if d != 0 then round2 (cp / (1 - (d : ℚ) / 100)) else cp
      | none => cp
    if !zooroyalIsWetFood t.name then none else
    -- `f"{name} {size}"`: a missing size renders as the text `None`
    let sizeStr : List Char :=
      match size with
      | some s => s
      | none => "None".data
    let weight := parseWeightGrams (t.name ++ ' ' :: sizeStr)
    let origPpk := calculatePricePerKg originalPrice weight
    let redPpk := if onSale then calculatePricePerKg cp weight else none
    let brand : Option (List Char) :=
      if t.brandText.isEmpty then (extractBrand t.name).map String.data
      else some t.brandText
    some { externalId := t.externalId
           brand := brand
           currentPrice := cp
           originalPrice := some originalPrice
           isOnSale := onSale
           url := t.url
           site := "zooroyal".data
           weightGrams := weight
           originalPricePerKg := origPpk
           reducedPricePerKg := redPpk }

/-! ### Streaming runners (pagination loops, dedup, price filters)

Each `scrape_*_products` async generator is modelled as a pure function
from the list of fetched-and-parsed pages to the list of yielded chunks.
A missing page (failed fetch) simply terminates the supplied page list. -/

/-- The effective scrape ceiling:
`max(max_price_per_kg or 0, DEFAULT_MAX_PRICE_PER_KG)`. -/
def effectiveScrapePrice (maxPrice : Option ℚ) (dflt : ℚ) : ℚ :=
  max (maxPrice.getD 0) dflt

/-- The client-side price filter shared by the Fressnapf, Zooroyal and
Zoo24 loops:
`price_per_kg and price_per_kg > scrape_price * 1.3` with
`price_per_kg = p.reduced_price_per_kg or p.original_price_per_kg`. -/
def exceedsCeiling (scrapePrice : ℚ) (p : ScrapedProduct) : Bool :=
  let ppkg := orQ p.reducedPricePerKg p.originalPricePerKg
  truthy ppkg && decide (scrapePrice * (13/10) < ppkg.getD 0)

/-- One item of the dedup pass against the per-invocation `seen_ids` set
(`if p.external_id not in seen_ids: seen_ids.add(...); chunk.append(p)`). -/
def dedupStep (acc : List ScrapedProduct × List (List Char)) (p : ScrapedProduct) :
    List ScrapedProduct × List (List Char) :=
  if acc.2.contains p.externalId then acc
  else (acc.1 ++ [p], acc.2 ++ [p.externalId])

/-- One page's dedup pass; returns the chunk and the grown set.  This is
the loop body shared by `BeautifulSoupScraper.scrape_brand_products`
(lines 734-738) and the Zooroyal fan-in consumer (lines 1736-1740). -/
def dedupChunk (seen : List (List Char)) (products : List ScrapedProduct) :
    List ScrapedProduct × List (List Char) :=
  products.foldl dedupStep ([], seen)

/-- `BeautifulSoupScraper.scrape_brand_products` page loop (lines 720-744):
stop on an empty parse, dedup, yield non-empty chunks, stop when a page
contributed nothing new.  No client-side price filter is applied; the
price ceiling is delegated to the server-side
`price_per_kg=0;fetch_max` URL filter. -/
def bsRun : List (List ScrapedProduct) → List (List Char) → List (List ScrapedProduct)
  | [], _ => []
  | page :: rest, seen =>
    if page.isEmpty then [] else
    if (dedupChunk seen page).1.isEmpty then []
    else (dedupChunk seen page).1 :: bsRun rest (dedupChunk seen page).2

/-- The server-side per-kg ceiling Site A/B request:
`fetch_max = int(scrape_price / 0.7) + 1` (line 713; `int` truncation
equals `⌊·⌋` on the nonnegative operand). -/
def bsFetchMax (maxPrice : Option ℚ) : ℤ :=
  ⌊effectiveScrapePrice maxPrice 10 / (7/10)⌋ + 1

/-- One Fressnapf item (lines 1115-1125): drop a product whose derived
price-per-kg exceeds the ceiling with 30% headroom, then dedup. -/
def fressnapfStep (scrapePrice : ℚ) (acc : List ScrapedProduct × List (List Char))
    (p : ScrapedProduct) : List ScrapedProduct × List (List Char) :=
  if exceedsCeiling scrapePrice p then acc else dedupStep acc p

/-- One Fressnapf page pass. -/
def fressnapfPageStep (scrapePrice : ℚ) (seen : List (List Char))
    (products : List ScrapedProduct) : List ScrapedProduct × List (List Char) :=
  products.foldl (fressnapfStep scrapePrice) ([], seen)

/-- `FressnapfScraper.scrape_brand_products` page loop (lines 1101-1131). -/
def fressnapfRun (maxPrice : Option ℚ) :
    List (List ScrapedProduct) → List (List Char) → ℕ → List (List ScrapedProduct)
  | [], _, _ => []
  | page :: rest, seen, pageNum =>
    if page.isEmpty then [] else
    if (fressnapfPageStep (effectiveScrapePrice maxPrice 15) seen page).1.isEmpty then
      (if pageNum > 1 then []
       else fressnapfRun maxPrice rest
         (fressnapfPageStep (effectiveScrapePrice maxPrice 15) seen page).2 (pageNum + 1))
    else (fressnapfPageStep (effectiveScrapePrice maxPrice 15) seen page).1
      :: fressnapfRun maxPrice rest
        (fressnapfPageStep (effectiveScrapePrice maxPrice 15) seen page).2 (pageNum + 1)

/-- One Zooroyal brand page (lines 1673-1687): convert each raw tile, drop
conversion failures and over-ceiling products.  No `seen` set here —
deduplication happens at the fan-in consumer. -/
def zooroyalTileStep (maxPrice : Option ℚ) (chunk : List ScrapedProduct)
    (data : ZooroyalTile) : List ScrapedProduct :=
  match zooroyalConvert data with
  | none => chunk
  | some product =>
    if exceedsCeiling (effectiveScrapePrice maxPrice 10) product then chunk
    else chunk ++ [product]

def zooroyalBrandPageChunk (maxPrice : Option ℚ) (raw : List ZooroyalTile) :
    List ScrapedProduct :=
  raw.foldl (zooroyalTileStep maxPrice) []

/-- `ZooroyalScraper._scrape_single_brand` page loop (lines 1665-1693). -/
def zooroyalBrandRun (maxPrice : Option ℚ) :
    List (List ZooroyalTile) → ℕ → List (List ScrapedProduct)
  | [], _ => []
  | page :: rest, pageNum =>
    if page.isEmpty then [] else
    let chunk := zooroyalBrandPageChunk maxPrice page
    if chunk.isEmpty then
      (if pageNum > 1 then [] else zooroyalBrandRun maxPrice rest (pageNum + 1))
    else chunk :: zooroyalBrandRun maxPrice rest (pageNum + 1)

/-- The Zooroyal fan-in consumer (`scrape_brand_products`, lines 1728-1742):
chunks arriving from the per-brand producers, in arrival order, are
deduplicated against one session-wide `seen_ids` set; non-empty survivors
are yielded.  (The `None` completion markers only control loop
termination and carry no data, so the input is the list of data chunks.) -/
def zooroyalConsume (incoming : List (List ScrapedProduct)) :
    List (List ScrapedProduct) :=
  (incoming.foldl
    (fun acc item =>
      (acc.1 ++ (if (dedupChunk acc.2 item).1.isEmpty then []
                 else [(dedupChunk acc.2 item).1]),
       (dedupChunk acc.2 item).2))
    ([], [])).1

/-- The Zoo24 brand set: normalized union of the quality brands and the
watched brands (`{self.normalize_brand(b) for b in all_brands}`). -/
def zoo24BrandSet (brands : List String) (includeDefault : Bool) : List (List Char) :=
  ((if includeDefault then QUALITY_BRANDS else []) ++ brands).map
    (fun b => normalizeBrand b.data)

/-- The Zoo24 brand-filter skip (lines 1991-1997):
`if p.brand and normalize_brand(p.brand) not in brand_set: continue` and
`if not p.brand: continue` — an item is skipped when it has no (or an
empty) brand or a brand outside the scanned set. -/
def zoo24Skip (brandSet : List (List Char)) (p : ScrapedProduct) : Bool :=
  match p.brand with
  | none => true
  | some b => b.isEmpty || !brandSet.contains (normalizeBrand b)

/-- The Zoo24 per-item loop (lines 1990-2016): brand filter, the
early-termination counter over consecutive over-ceiling items
(threshold ×1.3, 10 in a row stops the scan), and dedup.  Returns the
chunk so far, the grown seen set, the counter, and whether the scan
stopped (`return`) inside this page. -/
def zoo24ProcessItems (scrapePrice : ℚ) (brandSet : List (List Char)) :
    List ScrapedProduct → List (List Char) → ℕ → List ScrapedProduct →
    List ScrapedProduct × List (List Char) × ℕ × Bool
  | [], seen, cnt, chunk => (chunk, seen, cnt, false)
  | p :: rest, seen, cnt, chunk =>
    if zoo24Skip brandSet p then zoo24ProcessItems scrapePrice brandSet rest seen cnt chunk
    else
      if exceedsCeiling scrapePrice p then
        if cnt + 1 ≥ 10 then (chunk, seen, cnt + 1, true)
        else zoo24ProcessItems scrapePrice brandSet rest seen (cnt + 1) chunk
      else
        if seen.contains p.externalId then
          zoo24ProcessItems scrapePrice brandSet rest seen 0 chunk
        else
          zoo24ProcessItems scrapePrice brandSet rest (seen ++ [p.externalId]) 0
            (chunk ++ [p])

/-- `Zoo24Scraper.scrape_brand_products` page loop (lines 1976-2023).
On a stop the in-progress chunk is still yielded and the generator
returns; otherwise empty pages past page 3 end the scan. -/
def zoo24Run (scrapePrice : ℚ) (brandSet : List (List Char)) :
    List (List ScrapedProduct) → List (List Char) → ℕ → ℕ →
    List (List ScrapedProduct)
  | [], _, _, _ => []
  | page :: rest, seen, cnt, pageNum =>
    if page.isEmpty then [] else
    if (zoo24ProcessItems scrapePrice brandSet page seen cnt []).2.2.2 then
      (if (zoo24ProcessItems scrapePrice brandSet page seen cnt []).1.isEmpty then []
       else [(zoo24ProcessItems scrapePrice brandSet page seen cnt []).1])
    else if (zoo24ProcessItems scrapePrice brandSet page seen cnt []).1.isEmpty then
      (if pageNum > 3 then []
       else zoo24Run scrapePrice brandSet rest
         (zoo24ProcessItems scrapePrice brandSet page seen cnt []).2.1
         (zoo24ProcessItems scrapePrice brandSet page seen cnt []).2.2.1 (pageNum + 1))
    else (zoo24ProcessItems scrapePrice brandSet page seen cnt []).1
      :: zoo24Run scrapePrice brandSet rest
        (zoo24ProcessItems scrapePrice brandSet page seen cnt []).2.1
        (zoo24ProcessItems scrapePrice brandSet page seen cnt []).2.2.1 (pageNum + 1)

/-! ### Matching engine (`deal_service.find_cheapest_variants`)

The engine consumes `(product, price, price_per_kg)` tuples whose product
rows carry `match_key` (built by `database.generate_match_key` as
`brand_norm|size_norm`), `site` and `url`.  A `Deal` abstracts one tuple;
`pid` tags the underlying product row so distinct tuples stay
distinguishable. -/

structure Deal where
  pid : ℕ
  matchKey : List Char
  site : List Char
  url : List Char
  ppkg : ℚ
deriving DecidableEq

/-- `unique_key = f"{product.match_key}|{product.site}"`. -/
def dealKey (d : Deal) : List Char := d.matchKey ++ '|' :: d.site

/-- One step of the `(matchKey, site)` deduplication over the insertion-
ordered `unique_deals` dict: a first occurrence of the key inserts at the
end, a strictly cheaper later occurrence replaces the stored deal in
place (`if ppkg < unique_deals[unique_key][2]`). -/
def upsertCheaper : List (List Char × Deal) → Deal → List (List Char × Deal)
  | [], d => [(dealKey d, d)]
  | e :: t, d =>
    if e.1 == dealKey d then
      (if d.ppkg < e.2.ppkg then (e.1, d) else e) :: t
    else e :: upsertCheaper t d

/-- `unique_deals.values()` (Python dicts iterate in insertion order). -/
def uniqueDeals (deals : List Deal) : List Deal :=
  (deals.foldl upsertCheaper []).map Prod.snd

/-- One step of the `grouped_variants` defaultdict grouping by
`match_key`: append to the key's list, creating the entry (at the end) on
first sight of the key. -/
def pushGroup : List (List Char × List Deal) → Deal → List (List Char × List Deal)
  | [], d => [(d.matchKey, [d])]
  | e :: t, d =>
    if e.1 == d.matchKey then (e.1, e.2 ++ [d]) :: t
    else e :: pushGroup t d

def groupedVariants (l : List Deal) : List (List Char × List Deal) :=
  l.foldl pushGroup []

/-- Python `str.capitalize()`. -/
def capitalize : List Char → List Char
  | [] => []
  | c :: t => c.toUpper :: t.map Char.toLower

/-- `variants.sort(key=lambda x: x[2])`: Python's sort is stable, i.e. it
is insertion sort by `ppkg`. -/
def sortDealsByPpkg (l : List Deal) : List Deal :=
  List.insertionSort (fun a b => a.ppkg ≤ b.ppkg) l

/-- One matching-run result: the cheapest variant and the
`(site.capitalize(), price_per_kg, url)` entries of the other sites. -/
structure VariantResult where
  primary : Deal
  otherSites : List (List Char × ℚ × List Char)
deriving DecidableEq

/-- `deal_service.find_cheapest_variants` (lines 90-144). -/
def findCheapestVariants (deals : List Deal) : List VariantResult :=
  let uniq := uniqueDeals deals
  let groups := groupedVariants uniq
  let results := groups.filterMap (fun e =>
    match sortDealsByPpkg e.2 with
    | [] => none
    | cheapest :: others =>
      some { primary := cheapest
             otherSites := others.map (fun d => (capitalize d.site, d.ppkg, d.url)) })
  List.insertionSort (fun a b => a.primary.ppkg ≤ b.primary.ppkg) results

/-! ### Alert formatter site ordering (`formatter.format_cheapest_variant_alert`,
lines 79-92) -/

/-- `site_order = {"Zooplus": 0, "Bitiba": 1, "Zoo24": 4}` with
`.get(site, 99)`. -/
def siteOrderKey (s : List Char) : ℕ :=
  if s == "Zooplus".data then 0
  else if s == "Bitiba".data then 1
  else if s == "Zoo24".data then 4
  else 99

/-- `sorted(all_sites, key=lambda x: site_order.get(x[0], 99))` over the
combined primary+alternates display list (a `(site, price_per_kg, url)`
triple whose price may be falsy). -/
def sortAllSites (l : List (List Char × Option ℚ × List Char)) :
    List (List Char × Option ℚ × List Char) :=
  List.insertionSort (fun a b => siteOrderKey a.1 ≤ siteOrderKey b.1) l


/-! ### Concrete tiles and records for the C1 and C6 theorems -/

def c6Tile : BSTile :=
  { externalId := "zooplus:1".data
    name := "Leonardo Sparpaket Nassfutter 24 x 400 g".data
    url := "https://www.zooplus.de/shop/katzen/x".data
    unavailable := false
    aboPrices := []
    perKgPrices := []
    discountPercent := none
    perUnitPrices := []
    einzelnPrices := []
    uvpPrices := []
    mixpaketPrice := some 20
    allPrices := [20, 15] }

def c6wTile : BSTile :=
  { externalId := "bitiba:77".data
    name := "Leonardo Nassfutter 6 x 400 g".data
    url := "https://www.bitiba.de/shop/katzen/leo6".data
    unavailable := false
    aboPrices := []
    perKgPrices := []
    discountPercent := none
    perUnitPrices := []
    einzelnPrices := []
    uvpPrices := []
    mixpaketPrice := none
    allPrices := [25, 18] }

def c6sTile : BSTile :=
  { externalId := "zooplus:78".data
    name := "Feringa Nassfutter 400 g".data
    url := "https://www.zooplus.de/shop/katzen/fer".data
    unavailable := false
    aboPrices := []
    perKgPrices := []
    discountPercent := none
    perUnitPrices := []
    einzelnPrices := []
    uvpPrices := []
    mixpaketPrice := none
    allPrices := [9] }

def c6wRec : ScrapedProduct :=
  { externalId := "bitiba:77".data
    brand := (extractBrand "Leonardo Nassfutter 6 x 400 g".data).map String.data
    currentPrice := ((bsPrices c6wTile).2).getD 0
    originalPrice := (bsPrices c6wTile).1
    isOnSale := false
    url := "https://www.bitiba.de/shop/katzen/leo6".data
    site := "bitiba".data
    weightGrams := none
    originalPricePerKg := bsOrigPpk c6wTile
    reducedPricePerKg := bsReducedPpk c6wTile }

def c1Tile : FressnapfTile :=
  { hasHeaderLink := true
    href := "/p/animonda-carny-rind-400-g-123456/".data
    brandText := some "Animonda".data
    nameText := some "Animonda Carny Rind 400 g".data
    priceParsed := some 3
    perKgParsed := some 5
    strikeParsed := some 4
    badgeDiscount := none }

def c1Rec : ScrapedProduct :=
  { externalId := "fressnapf:123456".data
    brand := some "Animonda".data
    currentPrice := 3
    originalPrice := some 4
    isOnSale := true
    url := "/p/animonda-carny-rind-400-g-123456/".data
    site := "fressnapf".data
    weightGrams := parseWeightGrams "Animonda Carny Rind 400 g".data
    originalPricePerKg := some 5
    reducedPricePerKg :=
      calculatePricePerKg 3 (parseWeightGrams "Animonda Carny Rind 400 g".data) }

def c1wB : BSTile :=
  { externalId := "zooplus:901".data
    name := "Leonardo Nassfutter 400 g".data
    url := "https://www.zooplus.de/shop/katzen/leo".data
    unavailable := false
    aboPrices := []
    perKgPrices := []
    discountPercent := none
    perUnitPrices := []
    einzelnPrices := []
    uvpPrices := []
    mixpaketPrice := none
    allPrices := [3] }

def c1wBRec : ScrapedProduct :=
  { externalId := "zooplus:901".data
    brand := (extractBrand "Leonardo Nassfutter 400 g".data).map String.data
    currentPrice := ((bsPrices c1wB).2).getD 0
    originalPrice := (bsPrices c1wB).1
    isOnSale := false
    url := "https://www.zooplus.de/shop/katzen/leo".data
    site := "zooplus".data
    weightGrams := none
    originalPricePerKg := bsOrigPpk c1wB
    reducedPricePerKg := bsReducedPpk c1wB }

def c1w24 : Zoo24Tile :=
  { handle := "feringa-nassfutter-400".data
    hasProductLink := true
    urlHref := "https://www.zoo24.de/feringa-nassfutter-400".data
    name := "Feringa Nassfutter 400 g".data
    salePrice := some 3
    comparePrice := none
    unitPricePerKg := none }

def c1w24Rec : ScrapedProduct :=
  { externalId := "zoo24:".data ++ "feringa-nassfutter-400".data
    brand := (extractBrand "Feringa Nassfutter 400 g".data).map String.data
    currentPrice := 3
    originalPrice := some (zoo24OriginalPrice 3 none)
    isOnSale := zoo24OnSale 3 none
    url := "https://www.zoo24.de/feringa-nassfutter-400".data
    site := "zoo24".data
    weightGrams := parseWeightGrams "Feringa Nassfutter 400 g".data
    originalPricePerKg :=
      (zoo24Pair2 3 (zoo24OriginalPrice 3 none) (zoo24OnSale 3 none)
        (parseWeightGrams "Feringa Nassfutter 400 g".data)
        (zoo24Pair 3 (zoo24OriginalPrice 3 none) (zoo24OnSale 3 none) none)).1
    reducedPricePerKg :=
      (zoo24Pair2 3 (zoo24OriginalPrice 3 none) (zoo24OnSale 3 none)
        (parseWeightGrams "Feringa Nassfutter 400 g".data)
        (zoo24Pair 3 (zoo24OriginalPrice 3 none) (zoo24OnSale 3 none) none)).2 }

def c1wZr : ZooroyalTile :=
  { externalId := "zooroyal:31".data
    url := "https://www.zooroyal.de/feringa-nassfutter".data
    name := "Feringa Nassfutter".data
    brandText := "Feringa".data
    sizeText := "400 g".data
    ariaPrice := some 3
    badgeDiscount := none }

def c1wZrRec : ScrapedProduct :=
  { externalId := "zooroyal:31".data
    brand := some "Feringa".data
    currentPrice := 3
    originalPrice := some 3
    isOnSale := false
    url := "https://www.zooroyal.de/feringa-nassfutter".data
    site := "zooroyal".data
    weightGrams := parseWeightGrams ("Feringa Nassfutter".data ++ ' ' :: "400 g".data)
    originalPricePerKg :=
      calculatePricePerKg 3 (parseWeightGrams ("Feringa Nassfutter".data ++ ' ' :: "400 g".data))
    reducedPricePerKg := none }


/-! ### Supporting lemmas for brand extraction -/

theorem sortedBrands_sorted :
    List.Sorted (fun a b : String => b.length ≤ a.length) sortedBrands := by
  haveI h1 : IsTotal String (fun a b : String => b.length ≤ a.length) :=
    ⟨fun a b => le_total b.length a.length⟩
  haveI h2 : IsTrans String (fun a b : String => b.length ≤ a.length) :=
    ⟨fun _ _ _ hab hbc => le_trans hbc hab⟩
  exact List.sorted_insertionSort _ _

theorem mem_sortedBrands_iff {b : String} : b ∈ sortedBrands ↔ b ∈ BRANDS :=
  (List.perm_insertionSort _ BRANDS).mem_iff

/-- On a longest-first list, `find?` returns an element of maximal length
among those satisfying the predicate. -/
theorem find?_longest {l : List String} {p : String → Bool} {b : String}
    (hs : List.Sorted (fun a b : String => b.length ≤ a.length) l)
    (hf : l.find? p = some b) :
    ∀ b' ∈ l, p b' = true → b'.length ≤ b.length := by
  induction l with
  | nil => simp at hf
  | cons a t ih =>
    rw [List.find?_cons] at hf
    rcases List.sorted_cons.mp hs with ⟨hrel, htail⟩
    intro b' hb' hp
    by_cases hpa : p a
    · rw [hpa] at hf
      cases hf
      rcases hb' with _ | hb't
      · exact le_refl _
      · exact hrel b' (by assumption)
    · rw [Bool.not_eq_true] at hpa
      rw [hpa] at hf
      rcases hb' with _ | hb't
      · exact absurd hp (by simp [hpa])
      · exact ih htail hf b' (by assumption) hp

/-- C7: brand extraction scans the known brand list longest-first with a
word-boundary-safe match: whenever `_extract_brand` resolves a brand, that
brand is a known brand matched with non-`[a-z0-9]` (or string-edge)
characters on both sides of its occurrence, every other known brand that
also matches is no longer, and the name
`"Venandi Animal Katzenfutter grau 400g"` (with both `GRAU` and
`Venandi Animal` in the list) resolves to `"Venandi Animal"`. -/
theorem c7_brand_extraction :
    (∀ (name : List Char) (brand : String), extractBrand name = some brand →
      brand ∈ BRANDS
      ∧ brandSearch (normalizeBrand name) (normalizeBrand brand.data) = true
      ∧ ∀ brand' ∈ BRANDS,
          brandSearch (normalizeBrand name) (normalizeBrand brand'.data) = true →
          brand'.length ≤ brand.length)
    ∧ (∀ (name brand : List Char) (i : ℕ), brandMatchAt name brand i = true →
        prefixEq brand (name.drop i) = true
        ∧ (i = 0 ∨ isAlnumLC (name.getD (i - 1) ' ') = false)
        ∧ (i + brand.length = name.length
            ∨ isAlnumLC (name.getD (i + brand.length) ' ') = false))
    ∧ extractBrand "Venandi Animal Katzenfutter grau 400g".data = some "Venandi Animal" := by
  refine ⟨?_, ?_, by decide⟩
  · intro name brand hf
    have hmem : brand ∈ sortedBrands := List.mem_of_find?_eq_some hf
    have hpred := List.find?_some hf
    refine ⟨mem_sortedBrands_iff.mp hmem, hpred, ?_⟩
    intro b' hb' hp
    exact find?_longest sortedBrands_sorted hf b' (mem_sortedBrands_iff.mpr hb') hp
  · intro name brand i h
    simp only [brandMatchAt, Bool.and_eq_true, Bool.or_eq_true, beq_iff_eq,
      Bool.not_eq_true'] at h
    obtain ⟨⟨h1, h2⟩, h3⟩ := h
    refine ⟨h1, ?_, ?_⟩
    · rcases h2 with h2 | h2
      · exact Or.inl h2
      · exact Or.inr h2
    · rcases h3 with h3 | h3
      · exact Or.inl h3
      · exact Or.inr h3

/-- C7 witness: the theorem applied at the Venandi/GRAU example. -/
theorem c7_brand_extraction_witness :
    "Venandi Animal" ∈ BRANDS ∧ "GRAU".length ≤ "Venandi Animal".length := by
  obtain ⟨h1, _, h3⟩ := c7_brand_extraction.1 _ _ c7_brand_extraction.2.2
  exact ⟨h1, h3 "GRAU" (by decide) (by decide)⟩

/-- C8 counterexample input: a dry-food name processed by the Zooroyal
adapter. -/
def c8Name : List Char := "Trockenfutter Adult Katze 400 g".data

def c8Url : List Char := "https://www.zooroyal.de/trockenfutter-adult".data

def c8Tile : ZooroyalTile :=
  { externalId := "zooroyal:trockenfutter-adult".data
    url := c8Url
    name := c8Name
    brandText := "Wow".data
    sizeText := "400 g".data
    ariaPrice := some 3
    badgeDiscount := none }

/-- C8 counterexample: the combined name+URL text contains the exclusion
keyword `"trockenfutter"`, yet the Zooroyal adapter's `_is_wet_food`
override classifies the name as wet food, and its converter emits a
record — so the claimed exclusion behaviour does not hold for every
adapter on which classification is applied. -/
theorem c8_counterexample :
    containsAnyKeyword (lowerStr c8Name ++ ' ' :: lowerStr c8Url) EXCLUDE_KEYWORDS = true
    ∧ zooroyalIsWetFood c8Name = true
    ∧ (zooroyalConvert c8Tile).isSome = true := by
  refine ⟨by decide, by decide, by decide⟩

/-- C8 (amended): the base classifier (Sites A and B) rejects every
(name, url) whose combined text contains an exclusion keyword and accepts
every wet-food-keyword name without exclusion keywords; Zoo24's override
behaves the same on the name alone; Fressnapf's exclude-only override
still rejects `"Trockenfutter"`; Zooroyal's exclude-only override checks
only its own snack-word list (see the counterexample). -/
theorem c8_wet_food :
    (∀ name url : List Char,
      containsAnyKeyword (lowerStr name ++ ' ' :: lowerStr url) EXCLUDE_KEYWORDS = true →
      isWetFoodBase name url = false)
    ∧ (∀ name url : List Char,
      containsAnyKeyword (lowerStr name ++ ' ' :: lowerStr url) EXCLUDE_KEYWORDS = false →
      containsAnyKeyword (lowerStr name ++ ' ' :: lowerStr url) WET_FOOD_KEYWORDS = true →
      isWetFoodBase name url = true)
    ∧ (∀ name : List Char,
      containsAnyKeyword (lowerStr name) EXCLUDE_KEYWORDS = true →
      zoo24IsWetFood name = false)
    ∧ (∀ name : List Char,
      containsAnyKeyword (lowerStr name) EXCLUDE_KEYWORDS = false →
      containsAnyKeyword (lowerStr name) WET_FOOD_KEYWORDS = true →
      zoo24IsWetFood name = true)
    ∧ (∀ name : List Char,
      containsSub (lowerStr name) "trockenfutter".data = true →
      fressnapfIsWetFood name = false) := by
  refine ⟨?_, ?_, ?_, ?_, ?_⟩
  · intro name url h
    simp only [isWetFoodBase, h]
    simp
  · intro name url he hw
    simp only [isWetFoodBase, he, hw]
    simp
  · intro name h
    simp only [zoo24IsWetFood, h]
    simp
  · intro name he hw
    simp only [zoo24IsWetFood, he, hw]
    simp
  · intro name h
    have h2 : containsAnyKeyword (lowerStr name) ["trockenfutter", "trocken", "kibble"] = true := by
      simp only [containsAnyKeyword, List.any_eq_true]
      exact ⟨"trockenfutter", by simp, h⟩
    simp only [fressnapfIsWetFood, h2]
    simp

/-- C8 witness: the amended theorem applied at the spec's own examples. -/
theorem c8_wet_food_witness :
    isWetFoodBase "Katzen Trockenfutter".data "http://x".data = false
    ∧ isWetFoodBase "Leonardo Nassfutter".data "http://x/shop".data = true := by
  exact ⟨c8_wet_food.1 _ _ (by decide), c8_wet_food.2.1 _ _ (by decide) (by decide)⟩

/-! ### Deduplication and grouping: supporting lemmas for C2-C4 -/

theorem append_bar_inj : ∀ {a c b d : List Char},
    '|' ∉ b → '|' ∉ d → a ++ '|' :: b = c ++ '|' :: d → a = c ∧ b = d := by
  intro a
  induction a with
  | nil =>
    intro c b d hb hd h
    cases c with
    | nil => simpa using h
    | cons x t =>
      simp only [List.nil_append, List.cons_append, List.cons.injEq] at h
      exact absurd (h.2 ▸ List.mem_append_right t (List.mem_cons_self _ _)) hb
  | cons x a ih =>
    intro c b d hb hd h
    cases c with
    | nil =>
      simp only [List.cons_append, List.nil_append, List.cons.injEq] at h
      have : '|' ∈ d := by
        rw [← h.2]
        exact List.mem_append_right a (List.mem_cons_self _ _)
      exact absurd this hd
    | cons y t =>
      simp only [List.cons_append, List.cons.injEq] at h
      obtain ⟨h1, h2⟩ := ih hb hd h.2
      exact ⟨by rw [h.1, h1], h2⟩

theorem dealKey_eq_iff {d : Deal} {k s : List Char}
    (hds : '|' ∉ d.site) (hs : '|' ∉ s) :
    dealKey d = k ++ '|' :: s ↔ d.matchKey = k ∧ d.site = s := by
  constructor
  · intro h
    exact append_bar_inj hds hs h
  · rintro ⟨h1, h2⟩
    simp [dealKey, h1, h2]

/-- The per-key "keep first unless strictly cheaper" accumulator
(the `else` branch of the dedup loop). -/
def stepOpt (b : Option Deal) (d : Deal) : Option Deal :=
  match b with
  | none => some d
  | some b' => if d.ppkg < b'.ppkg then some d else some b'

/-- The surviving deal of one `(matchKey, site)` key class. -/
def minFirst (l : List Deal) : Option Deal := l.foldl stepOpt none

def optList : Option Deal → List Deal
  | none => []
  | some u => [u]

def lookupK (κ : List Char) (acc : List (List Char × Deal)) : Option Deal :=
  (acc.find? (fun e => e.1 == κ)).map Prod.snd

theorem lookupK_upsert (acc : List (List Char × Deal)) (d : Deal) (κ : List Char) :
    lookupK κ (upsertCheaper acc d) =
      if dealKey d == κ then stepOpt (lookupK κ acc) d else lookupK κ acc := by
  induction acc with
  | nil =>
    simp only [upsertCheaper, lookupK, List.find?]
    by_cases h : dealKey d == κ
    · simp [h, stepOpt]
    · simp [h]
  | cons e t ih =>
    by_cases he : e.1 == dealKey d
    · have he' : e.1 = dealKey d := by simpa using he
      simp only [upsertCheaper, if_pos he]
      by_cases hκ : dealKey d == κ
      · have hκ' : dealKey d = κ := by simpa using hκ
        by_cases hp : d.ppkg < e.2.ppkg
        · simp [lookupK, List.find?, he', hκ', hp, stepOpt]
        · simp [lookupK, List.find?, he', hκ', hp, stepOpt]
      · have hκ' : ¬ e.1 = κ := by
          rw [he']
          simpa using hκ
        by_cases hp : d.ppkg < e.2.ppkg
        · simp [lookupK, List.find?, hκ, hκ', hp, he']
        · simp [lookupK, List.find?, hκ, hκ', hp, he']
    · simp only [upsertCheaper, if_neg he]
      by_cases heκ : e.1 == κ
      · have heκ' : e.1 = κ := by simpa using heκ
        have : ¬ (dealKey d == κ) := by
          intro hc
          apply he
          have : dealKey d = κ := by simpa using hc
          simp [heκ', this]
        simp [lookupK, List.find?, heκ, this]
      · simp only [lookupK, List.find?, heκ]
        simpa [lookupK] using ih

theorem upsert_wf : ∀ (acc : List (List Char × Deal)) (d : Deal),
    (∀ e ∈ acc, e.1 = dealKey e.2) →
    ∀ e ∈ upsertCheaper acc d, e.1 = dealKey e.2 := by
  intro acc
  induction acc with
  | nil =>
    intro d _ e he
    simp only [upsertCheaper, List.mem_singleton] at he
    subst he; rfl
  | cons a t ih =>
    intro d h e he
    by_cases ha : a.1 == dealKey d
    · simp only [upsertCheaper, if_pos ha, List.mem_cons] at he
      rcases he with he | he
      · by_cases hp : d.ppkg < a.2.ppkg
        · rw [if_pos hp] at he
          subst he
          simpa using ha
        · rw [if_neg hp] at he
          subst he
          exact h _ (List.mem_cons_self _ _)
      · exact h e (List.mem_cons_of_mem _ he)
    · simp only [upsertCheaper, if_neg ha, List.mem_cons] at he
      rcases he with he | he
      · subst he; exact h e (List.mem_cons_self _ _)
      · exact ih d (fun e' he' => h e' (List.mem_cons_of_mem _ he')) e he

theorem upsert_keys_sub : ∀ (acc : List (List Char × Deal)) (d : Deal) (κ : List Char),
    κ ∈ (upsertCheaper acc d).map Prod.fst →
    κ ∈ acc.map Prod.fst ∨ κ = dealKey d := by
  intro acc
  induction acc with
  | nil =>
    intro d κ h
    simp only [upsertCheaper, List.map_cons, List.map_nil, List.mem_singleton] at h
    exact Or.inr h
  | cons a t ih =>
    intro d κ h
    by_cases ha : a.1 == dealKey d
    · simp only [upsertCheaper, if_pos ha] at h
      by_cases hp : d.ppkg < a.2.ppkg
      · rw [if_pos hp] at h
        simp only [List.map_cons, List.mem_cons] at h ⊢
        tauto
      · rw [if_neg hp] at h
        simp only [List.map_cons, List.mem_cons] at h ⊢
        tauto
    · simp only [upsertCheaper, if_neg ha, List.map_cons, List.mem_cons] at h
      rcases h with h | h
      · exact Or.inl (List.mem_cons.mpr (Or.inl h))
      · rcases ih d κ h with h' | h'
        · exact Or.inl (List.mem_cons_of_mem _ h')
        · exact Or.inr h'

theorem upsert_nodup : ∀ (acc : List (List Char × Deal)) (d : Deal),
    (acc.map Prod.fst).Nodup →
    ((upsertCheaper acc d).map Prod.fst).Nodup := by
  intro acc
  induction acc with
  | nil =>
    intro d _
    simp [upsertCheaper]
  | cons a t ih =>
    intro d h
    rw [List.map_cons, List.nodup_cons] at h
    by_cases ha : a.1 == dealKey d
    · simp only [upsertCheaper, if_pos ha]
      by_cases hp : d.ppkg < a.2.ppkg
      · rw [if_pos hp]
        simp only [List.map_cons, List.nodup_cons]
        exact ⟨h.1, h.2⟩
      · rw [if_neg hp]
        simp only [List.map_cons, List.nodup_cons]
        exact ⟨h.1, h.2⟩
    · simp only [upsertCheaper, if_neg ha, List.map_cons, List.nodup_cons]
      refine ⟨?_, ih d h.2⟩
      intro hc
      rcases upsert_keys_sub t d a.1 hc with h' | h'
      · exact h.1 h'
      · exact absurd (by simp [h']) ha

theorem values_filter_eq_lookup : ∀ (acc : List (List Char × Deal)) (κ : List Char),
    (acc.map Prod.fst).Nodup → (∀ e ∈ acc, e.1 = dealKey e.2) →
    (acc.map Prod.snd).filter (fun d => dealKey d == κ) = optList (lookupK κ acc) := by
  intro acc
  induction acc with
  | nil =>
    intro κ _ _
    simp [optList, lookupK]
  | cons a t ih =>
    intro κ hnd hwf
    rw [List.map_cons, List.nodup_cons] at hnd
    have ha : a.1 = dealKey a.2 := hwf a (List.mem_cons_self _ _)
    by_cases hk : dealKey a.2 == κ
    · have hk' : dealKey a.2 = κ := by simpa using hk
      have hfilter_t : (t.map Prod.snd).filter (fun d => dealKey d == κ) = [] := by
        rw [List.filter_eq_nil_iff]
        intro b hb
        simp only [List.mem_map] at hb
        obtain ⟨e, he, rfl⟩ := hb
        have hwe : e.1 = dealKey e.2 := hwf e (List.mem_cons_of_mem _ he)
        intro hc
        have hc' : dealKey e.2 = κ := by simpa using hc
        apply hnd.1
        have hae : a.1 = e.1 := by rw [ha, hk', ← hc', ← hwe]
        rw [hae]
        exact List.mem_map_of_mem Prod.fst he
      have hlook : lookupK κ (a :: t) = some a.2 := by
        have : (a.1 == κ) = true := by simp [ha, hk']
        simp [lookupK, List.find?, this]
      rw [hlook]
      simp only [List.map_cons, List.filter_cons, hk, if_pos, hfilter_t, optList]
    · have hk1 : ¬ ((a.1 == κ) = true) := by
        rw [ha]; simpa using hk
      have hlook : lookupK κ (a :: t) = lookupK κ t := by
        simp only [lookupK, List.find?]
        rw [Bool.not_eq_true] at hk1
        rw [hk1]
      rw [hlook]
      simp only [List.map_cons, List.filter_cons]
      rw [if_neg (by simpa using hk)]
      exact ih κ hnd.2 (fun e he => hwf e (List.mem_cons_of_mem _ he))

theorem fold_filter : ∀ (ds : List Deal) (acc : List (List Char × Deal)) (κ : List Char),
    (acc.map Prod.fst).Nodup → (∀ e ∈ acc, e.1 = dealKey e.2) →
    ((ds.foldl upsertCheaper acc).map Prod.snd).filter (fun d => dealKey d == κ)
    = optList ((ds.filter (fun d => dealKey d == κ)).foldl stepOpt (lookupK κ acc)) := by
  intro ds
  induction ds with
  | nil =>
    intro acc κ hnd hwf
    simpa using values_filter_eq_lookup acc κ hnd hwf
  | cons d rest ih =>
    intro acc κ hnd hwf
    rw [List.foldl_cons]
    rw [ih (upsertCheaper acc d) κ (upsert_nodup acc d hnd) (upsert_wf acc d hwf)]
    rw [lookupK_upsert]
    by_cases hk : dealKey d == κ
    · rw [if_pos hk, List.filter_cons, if_pos hk, List.foldl_cons]
    · rw [if_neg hk, List.filter_cons, if_neg hk]

theorem uniqueDeals_filter_key (deals : List Deal) (κ : List Char) :
    (uniqueDeals deals).filter (fun d => dealKey d == κ)
    = optList (minFirst (deals.filter (fun d => dealKey d == κ))) := by
  have := fold_filter deals [] κ (by simp) (by simp)
  simpa [uniqueDeals, minFirst, lookupK] using this

theorem foldl_stepOpt_some : ∀ (l : List Deal) (b : Deal),
    ∃ u, l.foldl stepOpt (some b) = some u ∧ (u = b ∨ u ∈ l) ∧ u.ppkg ≤ b.ppkg
      ∧ ∀ d ∈ l, u.ppkg ≤ d.ppkg := by
  intro l
  induction l with
  | nil =>
    intro b
    exact ⟨b, by simp⟩
  | cons d t ih =>
    intro b
    rw [List.foldl_cons]
    by_cases hp : d.ppkg < b.ppkg
    · have hstep : stepOpt (some b) d = some d := by simp [stepOpt, hp]
      rw [hstep]
      obtain ⟨u, h1, h2, h3, h4⟩ := ih d
      refine ⟨u, h1, ?_, le_trans h3 (le_of_lt hp), ?_⟩
      · rcases h2 with h2 | h2
        · exact Or.inr (h2 ▸ List.mem_cons_self _ _)
        · exact Or.inr (List.mem_cons_of_mem _ h2)
      · intro d' hd'
        rcases List.mem_cons.mp hd' with hd' | hd'
        · exact hd' ▸ h3
        · exact h4 d' hd'
    · have hstep : stepOpt (some b) d = some b := by simp [stepOpt, hp]
      rw [hstep]
      obtain ⟨u, h1, h2, h3, h4⟩ := ih b
      refine ⟨u, h1, ?_, h3, ?_⟩
      · rcases h2 with h2 | h2
        · exact Or.inl h2
        · exact Or.inr (List.mem_cons_of_mem _ h2)
      · intro d' hd'
        rcases List.mem_cons.mp hd' with hd' | hd'
        · exact hd' ▸ le_trans h3 (not_lt.mp hp)
        · exact h4 d' hd'

theorem minFirst_spec {l : List Deal} (h : l ≠ []) :
    ∃ u, minFirst l = some u ∧ u ∈ l ∧ ∀ d ∈ l, u.ppkg ≤ d.ppkg := by
  cases l with
  | nil => exact absurd rfl h
  | cons d t =>
    unfold minFirst
    rw [List.foldl_cons]
    have hstep : stepOpt none d = some d := rfl
    rw [hstep]
    obtain ⟨u, h1, h2, h3, h4⟩ := foldl_stepOpt_some t d
    refine ⟨u, h1, ?_, ?_⟩
    · rcases h2 with h2 | h2
      · exact h2 ▸ List.mem_cons_self _ _
      · exact List.mem_cons_of_mem _ h2
    · intro d' hd'
      rcases List.mem_cons.mp hd' with hd' | hd'
      · exact hd' ▸ h3
      · exact h4 d' hd'

theorem upsert_snd_mem : ∀ (acc : List (List Char × Deal)) (d : Deal),
    ∀ e ∈ upsertCheaper acc d, e.2 = d ∨ e ∈ acc := by
  intro acc
  induction acc with
  | nil =>
    intro d e he
    simp only [upsertCheaper, List.mem_singleton] at he
    exact Or.inl (by rw [he])
  | cons a t ih =>
    intro d e he
    by_cases ha : a.1 == dealKey d
    · simp only [upsertCheaper, if_pos ha, List.mem_cons] at he
      rcases he with he | he
      · by_cases hp : d.ppkg < a.2.ppkg
        · rw [if_pos hp] at he
          exact Or.inl (by rw [he])
        · rw [if_neg hp] at he
          exact Or.inr (he ▸ List.mem_cons_self _ _)
      · exact Or.inr (List.mem_cons_of_mem _ he)
    · simp only [upsertCheaper, if_neg ha, List.mem_cons] at he
      rcases he with he | he
      · exact Or.inr (he ▸ List.mem_cons_self _ _)
      · rcases ih d e he with h' | h'
        · exact Or.inl h'
        · exact Or.inr (List.mem_cons_of_mem _ h')

theorem mem_fold_upsert : ∀ (ds : List Deal) (acc : List (List Char × Deal)) (u : Deal),
    u ∈ (ds.foldl upsertCheaper acc).map Prod.snd →
    u ∈ acc.map Prod.snd ∨ u ∈ ds := by
  intro ds
  induction ds with
  | nil =>
    intro acc u h
    exact Or.inl h
  | cons d rest ih =>
    intro acc u h
    rw [List.foldl_cons] at h
    rcases ih (upsertCheaper acc d) u h with h' | h'
    · simp only [List.mem_map] at h'
      obtain ⟨e, he, rfl⟩ := h'
      rcases upsert_snd_mem acc d e he with h'' | h''
      · exact Or.inr (h'' ▸ List.mem_cons_self _ _)
      · exact Or.inl (List.mem_map_of_mem Prod.snd h'')
    · exact Or.inr (List.mem_cons_of_mem _ h')

theorem mem_uniqueDeals {deals : List Deal} {u : Deal} (h : u ∈ uniqueDeals deals) :
    u ∈ deals := by
  rcases mem_fold_upsert deals [] u h with h' | h'
  · simp at h'
  · exact h'

theorem bool_filter_eq {d : Deal} {k s : List Char}
    (hds : '|' ∉ d.site) (hs : '|' ∉ s) :
    (d.matchKey == k && d.site == s) = (dealKey d == (k ++ '|' :: s)) := by
  rw [Bool.eq_iff_iff]
  simp only [Bool.and_eq_true, beq_iff_eq]
  rw [dealKey_eq_iff hds hs]

/-- C2: in `find_cheapest_variants`, for every input deal set, when the
`(matchKey, site)` class of a key `k` and site `s` is non-empty, exactly
one of its offers survives the deduplication pass, and it is one with the
lowest price-per-kg of the class (the first such, on ties).  The
hypothesis that site names contain no `'|'` reflects the fixed site enum
(`zooplus`, `bitiba`, `zooroyal`, `fressnapf`, `zoo24`), since the code
builds the dict key by string concatenation `match_key|site`. -/
theorem c2_site_dedup :
    ∀ (deals : List Deal) (k s : List Char),
      (∀ d ∈ deals, '|' ∉ d.site) → '|' ∉ s →
      deals.filter (fun d => d.matchKey == k && d.site == s) ≠ [] →
      ∃ u, (uniqueDeals deals).filter (fun d => d.matchKey == k && d.site == s) = [u]
        ∧ u ∈ deals.filter (fun d => d.matchKey == k && d.site == s)
        ∧ ∀ d ∈ deals.filter (fun d => d.matchKey == k && d.site == s),
            u.ppkg ≤ d.ppkg := by
  intro deals k s hsites hs hne
  have hcongr : deals.filter (fun d => d.matchKey == k && d.site == s)
      = deals.filter (fun d => dealKey d == (k ++ '|' :: s)) :=
    List.filter_congr (fun d hd => bool_filter_eq (hsites d hd) hs)
  have hcongr2 : (uniqueDeals deals).filter (fun d => d.matchKey == k && d.site == s)
      = (uniqueDeals deals).filter (fun d => dealKey d == (k ++ '|' :: s)) :=
    List.filter_congr (fun d hd => bool_filter_eq (hsites d (mem_uniqueDeals hd)) hs)
  rw [hcongr] at hne ⊢
  rw [hcongr2]
  rw [uniqueDeals_filter_key]
  obtain ⟨u, h1, h2, h3⟩ := minFirst_spec hne
  exact ⟨u, by rw [h1]; rfl, h2, h3⟩

def c2d1 : Deal := ⟨1, "leonardo|6x400g".data, "zooplus".data, "u1".data, 45/10⟩
def c2d2 : Deal := ⟨2, "leonardo|6x400g".data, "zooplus".data, "u2".data, 41/10⟩

/-- C2 witness: the theorem applied to two same-key same-site deals. -/
theorem c2_site_dedup_witness :
    ∃ u, (uniqueDeals [c2d1, c2d2]).filter
        (fun d => d.matchKey == "leonardo|6x400g".data && d.site == "zooplus".data) = [u]
      ∧ u ∈ [c2d1, c2d2].filter
          (fun d => d.matchKey == "leonardo|6x400g".data && d.site == "zooplus".data)
      ∧ ∀ d ∈ [c2d1, c2d2].filter
          (fun d => d.matchKey == "leonardo|6x400g".data && d.site == "zooplus".data),
          u.ppkg ≤ d.ppkg :=
  c2_site_dedup [c2d1, c2d2] _ _ (by decide) (by decide) (by decide)

/-! C3 machinery -/

theorem pushGroup_inv {Q : Deal → Prop} : ∀ (acc : List (List Char × List Deal)) (d : Deal),
    (∀ e ∈ acc, e.2 ≠ [] ∧ ∀ x ∈ e.2, Q x ∧ x.matchKey = e.1) → Q d →
    ∀ e ∈ pushGroup acc d, e.2 ≠ [] ∧ ∀ x ∈ e.2, Q x ∧ x.matchKey = e.1 := by
  intro acc
  induction acc with
  | nil =>
    intro d _ hQ e he
    simp only [pushGroup, List.mem_singleton] at he
    subst he
    exact ⟨by simp, by simpa using hQ⟩
  | cons a t ih =>
    intro d h hQ e he
    by_cases ha : a.1 == d.matchKey
    · have ha' : a.1 = d.matchKey := by simpa using ha
      simp only [pushGroup, if_pos ha, List.mem_cons] at he
      rcases he with he | he
      · subst he
        refine ⟨by simp, ?_⟩
        intro x hx
        rcases List.mem_append.mp hx with hx | hx
        · exact (h a (List.mem_cons_self _ _)).2 x hx
        · rw [List.mem_singleton] at hx
          subst hx
          exact ⟨hQ, ha'.symm⟩
      · exact h e (List.mem_cons_of_mem _ he)
    · simp only [pushGroup, if_neg ha, List.mem_cons] at he
      rcases he with he | he
      · subst he
        exact h e (List.mem_cons_self _ _)
      · exact ih d (fun e' he' => h e' (List.mem_cons_of_mem _ he')) hQ e he

theorem groupedVariants_inv {l : List Deal} :
    ∀ e ∈ groupedVariants l, e.2 ≠ [] ∧ ∀ x ∈ e.2, x ∈ l ∧ x.matchKey = e.1 := by
  have main : ∀ (ds : List Deal) (acc : List (List Char × List Deal)) (Q : Deal → Prop),
      (∀ e ∈ acc, e.2 ≠ [] ∧ ∀ x ∈ e.2, Q x ∧ x.matchKey = e.1) →
      (∀ d ∈ ds, Q d) →
      ∀ e ∈ ds.foldl pushGroup acc, e.2 ≠ [] ∧ ∀ x ∈ e.2, Q x ∧ x.matchKey = e.1 := by
    intro ds
    induction ds with
    | nil =>
      intro acc Q hacc _ e he
      exact hacc e he
    | cons d rest ih =>
      intro acc Q hacc hds e he
      rw [List.foldl_cons] at he
      exact ih (pushGroup acc d) Q
        (pushGroup_inv acc d hacc (hds d (List.mem_cons_self _ _)))
        (fun d' hd' => hds d' (List.mem_cons_of_mem _ hd')) e he
  exact main l [] (fun x => x ∈ l) (by simp) (fun d hd => hd)

theorem sortDealsByPpkg_sorted (l : List Deal) :
    List.Sorted (fun a b : Deal => a.ppkg ≤ b.ppkg) (sortDealsByPpkg l) := by
  haveI h1 : IsTotal Deal (fun a b : Deal => a.ppkg ≤ b.ppkg) :=
    ⟨fun a b => le_total a.ppkg b.ppkg⟩
  haveI h2 : IsTrans Deal (fun a b : Deal => a.ppkg ≤ b.ppkg) :=
    ⟨fun _ _ _ hab hbc => le_trans hab hbc⟩
  exact List.sorted_insertionSort _ _

theorem mem_sortDealsByPpkg {l : List Deal} {d : Deal} :
    d ∈ sortDealsByPpkg l ↔ d ∈ l :=
  (List.perm_insertionSort _ l).mem_iff

def c3leoA : Deal := ⟨1, "leonardo|6x400g".data, "zooplus".data, "urlA".data, 45/10⟩
def c3leoB : Deal := ⟨2, "leonardo|6x400g".data, "bitiba".data, "urlB".data, 41/10⟩

/-- C3: the matching engine groups deduplicated offers by match key; each
result's primary offer is a deduplicated offer whose price-per-kg is no
higher than any of its alternates, each alternate is a same-match-key
deduplicated offer tagged with its own (capitalized) site, price-per-kg
and url, the final list is sorted ascending by the primary's
price-per-kg, and the two-site Leonardo example yields one result with
the Bitiba offer primary and one Zooplus alternate entry. -/
theorem c3_grouping :
    (∀ deals : List Deal,
      List.Sorted (fun a b : VariantResult => a.primary.ppkg ≤ b.primary.ppkg)
        (findCheapestVariants deals)
      ∧ ∀ r ∈ findCheapestVariants deals,
          r.primary ∈ uniqueDeals deals
          ∧ ∀ alt ∈ r.otherSites,
              r.primary.ppkg ≤ alt.2.1
              ∧ ∃ d ∈ uniqueDeals deals,
                  d.matchKey = r.primary.matchKey
                  ∧ alt = (capitalize d.site, d.ppkg, d.url))
    ∧ findCheapestVariants [c3leoA, c3leoB]
        = [⟨c3leoB, [("Zooplus".data, 45/10, "urlA".data)]⟩] := by
  constructor
  · intro deals
    constructor
    · haveI h1 : IsTotal VariantResult (fun a b => a.primary.ppkg ≤ b.primary.ppkg) :=
        ⟨fun a b => le_total a.primary.ppkg b.primary.ppkg⟩
      haveI h2 : IsTrans VariantResult (fun a b => a.primary.ppkg ≤ b.primary.ppkg) :=
        ⟨fun _ _ _ hab hbc => le_trans hab hbc⟩
      exact List.sorted_insertionSort _ _
    · intro r hr
      rw [findCheapestVariants] at hr
      have hr2 := (List.perm_insertionSort _ _).mem_iff.mp hr
      rw [List.mem_filterMap] at hr2
      obtain ⟨e, he, hfe⟩ := hr2
      cases hsort : sortDealsByPpkg e.2 with
      | nil => rw [hsort] at hfe; simp at hfe
      | cons cheapest others =>
        rw [hsort] at hfe
        simp only [Option.some.injEq] at hfe
        have hmemgrp := groupedVariants_inv e he
        have hsorted := sortDealsByPpkg_sorted e.2
        rw [hsort] at hsorted
        rw [List.sorted_cons] at hsorted
        have hcheap_mem : cheapest ∈ e.2 := by
          rw [← mem_sortDealsByPpkg (l := e.2), hsort]
          exact List.mem_cons_self _ _
        have hprim : r.primary = cheapest := by rw [← hfe]
        constructor
        · rw [hprim]
          exact (hmemgrp.2 cheapest hcheap_mem).1
        · intro alt halt
          have halts : r.otherSites
              = others.map (fun d => (capitalize d.site, d.ppkg, d.url)) := by
            rw [← hfe]
          rw [halts] at halt
          rw [List.mem_map] at halt
          obtain ⟨d, hd, rfl⟩ := halt
          have hd_mem : d ∈ e.2 := by
            rw [← mem_sortDealsByPpkg (l := e.2), hsort]
            exact List.mem_cons_of_mem _ hd
          refine ⟨by rw [hprim]; exact hsorted.1 d hd, d, (hmemgrp.2 d hd_mem).1, ?_, rfl⟩
          rw [hprim]
          rw [(hmemgrp.2 d hd_mem).2, (hmemgrp.2 cheapest hcheap_mem).2]
  · norm_num [findCheapestVariants, uniqueDeals, upsertCheaper, dealKey,
      groupedVariants, pushGroup, sortDealsByPpkg, List.insertionSort,
      List.orderedInsert, capitalize, c3leoA, c3leoB,
      List.filterMap_cons, List.filterMap_nil]
    decide

/-- C3 witness: the grouping theorem applied at the Leonardo example. -/
theorem c3_grouping_witness :
    (⟨c3leoB, [("Zooplus".data, 45/10, "urlA".data)]⟩ : VariantResult).primary
        ∈ uniqueDeals [c3leoA, c3leoB]
    ∧ ∀ alt ∈ (⟨c3leoB, [("Zooplus".data, 45/10, "urlA".data)]⟩ : VariantResult).otherSites,
        (⟨c3leoB, [("Zooplus".data, 45/10, "urlA".data)]⟩ : VariantResult).primary.ppkg ≤ alt.2.1
        ∧ ∃ d ∈ uniqueDeals [c3leoA, c3leoB],
            d.matchKey = (⟨c3leoB, [("Zooplus".data, 45/10, "urlA".data)]⟩ : VariantResult).primary.matchKey
            ∧ alt = (capitalize d.site, d.ppkg, d.url) :=
  (c3_grouping.1 [c3leoA, c3leoB]).2 _
    (by rw [c3_grouping.2]; exact List.mem_singleton.mpr rfl)

/-! ### C4: ordering of the alternate-offers list -/

def c4dB : Deal := ⟨1, "leonardo|6x400g".data, "bitiba".data, "uB".data, 4⟩
def c4d24 : Deal := ⟨2, "leonardo|6x400g".data, "zoo24".data, "u24".data, 42/10⟩
def c4dZP : Deal := ⟨3, "leonardo|6x400g".data, "zooplus".data, "uZP".data, 45/10⟩

/-- C4 counterexample: a three-site deal set whose produced
`alternateOffers` list puts Zoo24 (preference key 4) before Zooplus
(preference key 0) — the engine's alternates are ordered by price-per-kg,
not by the fixed site preference order. -/
theorem c4_counterexample :
    findCheapestVariants [c4dB, c4d24, c4dZP]
      = [⟨c4dB, [("Zoo24".data, 42/10, "u24".data), ("Zooplus".data, 45/10, "uZP".data)]⟩]
    ∧ siteOrderKey "Zooplus".data < siteOrderKey "Zoo24".data := by
  constructor
  · norm_num [findCheapestVariants, uniqueDeals, upsertCheaper, dealKey,
      groupedVariants, pushGroup, sortDealsByPpkg, List.insertionSort,
      List.orderedInsert, capitalize, c4dB, c4d24, c4dZP,
      List.filterMap_cons, List.filterMap_nil]
    decide
  · decide

/-- C4 (amended): each result's alternate entries are ordered ascending
by price-per-kg; the fixed site preference order (Zooplus, Bitiba, …,
Zoo24, with unspecified sites keyed 99 and therefore last) is applied
only in the alert formatter, which stably sorts the combined
primary+alternates display list by that key. -/
theorem c4_alternate_order :
    (∀ (deals : List Deal) (r : VariantResult), r ∈ findCheapestVariants deals →
      List.Pairwise (fun a b : List Char × ℚ × List Char => a.2.1 ≤ b.2.1) r.otherSites)
    ∧ (∀ l : List (List Char × Option ℚ × List Char),
        List.Sorted (fun a b => siteOrderKey a.1 ≤ siteOrderKey b.1) (sortAllSites l)
        ∧ (sortAllSites l).Perm l) := by
  constructor
  · intro deals r hr
    rw [findCheapestVariants] at hr
    have hr2 := (List.perm_insertionSort _ _).mem_iff.mp hr
    rw [List.mem_filterMap] at hr2
    obtain ⟨e, he, hfe⟩ := hr2
    cases hsort : sortDealsByPpkg e.2 with
    | nil => rw [hsort] at hfe; simp at hfe
    | cons cheapest others =>
      rw [hsort] at hfe
      simp only [Option.some.injEq] at hfe
      have halts : r.otherSites
          = others.map (fun d => (capitalize d.site, d.ppkg, d.url)) := by
        rw [← hfe]
      have hsorted := sortDealsByPpkg_sorted e.2
      rw [hsort, List.sorted_cons] at hsorted
      rw [halts]
      exact List.Pairwise.map _ (fun a b hab => hab) hsorted.2
  · intro l
    haveI h1 : IsTotal (List Char × Option ℚ × List Char)
        (fun a b => siteOrderKey a.1 ≤ siteOrderKey b.1) :=
      ⟨fun a b => le_total (siteOrderKey a.1) (siteOrderKey b.1)⟩
    haveI h2 : IsTrans (List Char × Option ℚ × List Char)
        (fun a b => siteOrderKey a.1 ≤ siteOrderKey b.1) :=
      ⟨fun _ _ _ hab hbc => le_trans hab hbc⟩
    exact ⟨List.sorted_insertionSort _ _, List.perm_insertionSort _ _⟩

/-- C4 witness: the amended theorem applied at the counterexample deal
set and at a concrete display list. -/
theorem c4_alternate_order_witness :
    List.Pairwise (fun a b : List Char × ℚ × List Char => a.2.1 ≤ b.2.1)
      (⟨c4dB, [("Zoo24".data, 42/10, "u24".data), ("Zooplus".data, 45/10, "uZP".data)]⟩
        : VariantResult).otherSites :=
  c4_alternate_order.1 [c4dB, c4d24, c4dZP] _
    (by rw [c4_counterexample.1]; exact List.mem_singleton.mpr rfl)

/-! ### Price-ceiling filters, dedup invariants: supporting lemmas for C5, C9, C10 -/

theorem skipOrDedup_fold_inv (f : (List ScrapedProduct × List (List Char)) → ScrapedProduct →
      (List ScrapedProduct × List (List Char)))
    (hf : ∀ acc p, f acc p = acc ∨ f acc p = dedupStep acc p) :
    ∀ (products : List ScrapedProduct) (chunk0 : List ScrapedProduct)
      (seen0 : List (List Char)),
    (chunk0.map ScrapedProduct.externalId).Nodup →
    (∀ p ∈ chunk0, p.externalId ∈ seen0) →
    ((products.foldl f (chunk0, seen0)).1.map ScrapedProduct.externalId).Nodup
    ∧ (∀ p ∈ (products.foldl f (chunk0, seen0)).1,
        p.externalId ∈ (products.foldl f (chunk0, seen0)).2)
    ∧ (∀ x ∈ seen0, x ∈ (products.foldl f (chunk0, seen0)).2)
    ∧ (∀ p ∈ (products.foldl f (chunk0, seen0)).1,
        p ∈ chunk0 ∨ p.externalId ∉ seen0) := by
  intro products
  induction products with
  | nil =>
    intro chunk0 seen0 hnd hsub
    exact ⟨hnd, hsub, fun x hx => hx, fun p hp => Or.inl hp⟩
  | cons q rest ih =>
    intro chunk0 seen0 hnd hsub
    rw [List.foldl_cons]
    rcases hf (chunk0, seen0) q with hstep | hstep
    · rw [hstep]
      exact ih chunk0 seen0 hnd hsub
    · rw [hstep]
      unfold dedupStep
      by_cases hq : (chunk0, seen0).2.contains q.externalId
      · rw [if_pos hq]
        exact ih chunk0 seen0 hnd hsub
      · rw [if_neg hq]
        simp only at hq ⊢
        have hqs : q.externalId ∉ seen0 := by simpa using hq
        have hnd' : ((chunk0 ++ [q]).map ScrapedProduct.externalId).Nodup := by
          rw [List.map_append, List.map_singleton]
          rw [List.nodup_append]
          refine ⟨hnd, List.nodup_singleton _, ?_⟩
          intro x hx hxq
          rw [List.mem_singleton] at hxq
          subst hxq
          simp only [List.mem_map] at hx
          obtain ⟨p, hp, hpe⟩ := hx
          exact hqs (hpe ▸ hsub p hp)
        have hsub' : ∀ p ∈ chunk0 ++ [q], p.externalId ∈ seen0 ++ [q.externalId] := by
          intro p hp
          rcases List.mem_append.mp hp with hp | hp
          · exact List.mem_append_left _ (hsub p hp)
          · rw [List.mem_singleton] at hp
            subst hp
            exact List.mem_append_right _ (List.mem_singleton.mpr rfl)
        obtain ⟨h1, h2, h3, h4⟩ := ih (chunk0 ++ [q]) (seen0 ++ [q.externalId]) hnd' hsub'
        refine ⟨h1, h2, ?_, ?_⟩
        · intro x hx
          exact h3 x (List.mem_append_left _ hx)
        · intro p hp
          rcases h4 p hp with h' | h'
          · rcases List.mem_append.mp h' with h' | h'
            · exact Or.inl h'
            · rw [List.mem_singleton] at h'
              subst h'
              exact Or.inr hqs
          · right
            intro hc
            exact h' (List.mem_append_left _ hc)

theorem dedupChunk_inv (products : List ScrapedProduct) (seen : List (List Char)) :
    (((dedupChunk seen products).1.map ScrapedProduct.externalId).Nodup)
    ∧ (∀ p ∈ (dedupChunk seen products).1, p.externalId ∈ (dedupChunk seen products).2)
    ∧ (∀ x ∈ seen, x ∈ (dedupChunk seen products).2)
    ∧ (∀ p ∈ (dedupChunk seen products).1, p.externalId ∉ seen) := by
  have h := skipOrDedup_fold_inv dedupStep (fun acc p => Or.inr rfl) products [] seen
    (by simp) (by simp)
  obtain ⟨h1, h2, h3, h4⟩ := h
  exact ⟨h1, h2, h3, fun p hp => (h4 p hp).resolve_left (by simp)⟩

theorem fressnapfPageStep_inv (sp : ℚ) (products : List ScrapedProduct)
    (seen : List (List Char)) :
    (((fressnapfPageStep sp seen products).1.map ScrapedProduct.externalId).Nodup)
    ∧ (∀ p ∈ (fressnapfPageStep sp seen products).1,
        p.externalId ∈ (fressnapfPageStep sp seen products).2)
    ∧ (∀ x ∈ seen, x ∈ (fressnapfPageStep sp seen products).2)
    ∧ (∀ p ∈ (fressnapfPageStep sp seen products).1, p.externalId ∉ seen) := by
  have h := skipOrDedup_fold_inv (fressnapfStep sp)
    (fun acc p => by
      unfold fressnapfStep
      by_cases hc : exceedsCeiling sp p
      · rw [if_pos hc]; exact Or.inl rfl
      · rw [if_neg hc]; exact Or.inr rfl)
    products [] seen (by simp) (by simp)
  obtain ⟨h1, h2, h3, h4⟩ := h
  exact ⟨h1, h2, h3, fun p hp => (h4 p hp).resolve_left (by simp)⟩

theorem fressnapf_fold_bound (sp : ℚ) :
    ∀ (products : List ScrapedProduct) (chunk0 : List ScrapedProduct)
      (seen0 : List (List Char)) (p : ScrapedProduct),
    p ∈ (products.foldl (fressnapfStep sp) (chunk0, seen0)).1 →
    p ∈ chunk0 ∨ exceedsCeiling sp p = false := by
  intro products
  induction products with
  | nil =>
    intro chunk0 seen0 p hp
    exact Or.inl hp
  | cons q rest ih =>
    intro chunk0 seen0 p hp
    rw [List.foldl_cons] at hp
    by_cases hc : exceedsCeiling sp q
    · rw [show fressnapfStep sp (chunk0, seen0) q = (chunk0, seen0) by
        unfold fressnapfStep; rw [if_pos hc]] at hp
      exact ih chunk0 seen0 p hp
    · rw [show fressnapfStep sp (chunk0, seen0) q = dedupStep (chunk0, seen0) q by
        unfold fressnapfStep; rw [if_neg hc]] at hp
      unfold dedupStep at hp
      by_cases hq : (chunk0, seen0).2.contains q.externalId
      · rw [if_pos hq] at hp
        exact ih chunk0 seen0 p hp
      · rw [if_neg hq] at hp
        rcases ih _ _ p hp with h' | h'
        · rcases List.mem_append.mp h' with h' | h'
          · exact Or.inl h'
          · rw [List.mem_singleton] at h'
            subst h'
            exact Or.inr (by simpa using hc)
        · exact Or.inr h'

theorem fressnapfRun_bound (maxPrice : Option ℚ) :
    ∀ (pages : List (List ScrapedProduct)) (seen : List (List Char)) (n : ℕ)
      (p : ScrapedProduct),
    p ∈ (fressnapfRun maxPrice pages seen n).flatten →
    exceedsCeiling (effectiveScrapePrice maxPrice 15) p = false := by
  intro pages
  induction pages with
  | nil =>
    intro seen n p hp
    simp [fressnapfRun] at hp
  | cons page rest ih =>
    intro seen n p hp
    unfold fressnapfRun at hp
    by_cases hpe : page.isEmpty
    · rw [if_pos hpe] at hp
      simp at hp
    · rw [if_neg hpe] at hp
      by_cases hce : (fressnapfPageStep (effectiveScrapePrice maxPrice 15) seen page).1.isEmpty
      · rw [if_pos hce] at hp
        by_cases hn : n > 1
        · rw [if_pos hn] at hp
          simp at hp
        · rw [if_neg hn] at hp
          exact ih _ _ p hp
      · rw [if_neg hce] at hp
        rw [List.flatten, List.mem_append] at hp
        rcases hp with hp | hp
        · have := fressnapf_fold_bound (effectiveScrapePrice maxPrice 15) page [] seen p hp
          exact this.resolve_left (by simp)
        · exact ih _ _ p hp

theorem zooroyal_fold_bound (maxPrice : Option ℚ) :
    ∀ (raw : List ZooroyalTile) (chunk0 : List ScrapedProduct) (p : ScrapedProduct),
    p ∈ raw.foldl (zooroyalTileStep maxPrice) chunk0 →
    p ∈ chunk0 ∨ exceedsCeiling (effectiveScrapePrice maxPrice 10) p = false := by
  intro raw
  induction raw with
  | nil =>
    intro chunk0 p hp
    exact Or.inl hp
  | cons data rest ih =>
    intro chunk0 p hp
    rw [List.foldl_cons] at hp
    cases hd : zooroyalConvert data with
    | none =>
      rw [show zooroyalTileStep maxPrice chunk0 data = chunk0 by
        unfold zooroyalTileStep; rw [hd]] at hp
      exact ih chunk0 p hp
    | some product =>
      by_cases hc : exceedsCeiling (effectiveScrapePrice maxPrice 10) product
      · rw [show zooroyalTileStep maxPrice chunk0 data = chunk0 by
          unfold zooroyalTileStep; rw [hd]; exact if_pos hc] at hp
        exact ih chunk0 p hp
      · rw [show zooroyalTileStep maxPrice chunk0 data = chunk0 ++ [product] by
          unfold zooroyalTileStep; rw [hd]; exact if_neg hc] at hp
        rcases ih _ p hp with h' | h'
        · rcases List.mem_append.mp h' with h' | h'
          · exact Or.inl h'
          · rw [List.mem_singleton] at h'
            subst h'
            exact Or.inr (by simpa using hc)
        · exact Or.inr h'

theorem zooroyalBrandRun_bound (maxPrice : Option ℚ) :
    ∀ (pages : List (List ZooroyalTile)) (n : ℕ) (p : ScrapedProduct),
    p ∈ (zooroyalBrandRun maxPrice pages n).flatten →
    exceedsCeiling (effectiveScrapePrice maxPrice 10) p = false := by
  intro pages
  induction pages with
  | nil =>
    intro n p hp
    simp [zooroyalBrandRun] at hp
  | cons page rest ih =>
    intro n p hp
    unfold zooroyalBrandRun at hp
    by_cases hpe : page.isEmpty
    · rw [if_pos hpe] at hp
      simp at hp
    · rw [if_neg hpe] at hp
      by_cases hce : (zooroyalBrandPageChunk maxPrice page).isEmpty
      · rw [if_pos hce] at hp
        by_cases hn : n > 1
        · rw [if_pos hn] at hp
          simp at hp
        · rw [if_neg hn] at hp
          exact ih _ p hp
      · rw [if_neg hce] at hp
        rw [List.flatten_cons, List.mem_append] at hp
        rcases hp with hp | hp
        · exact (zooroyal_fold_bound maxPrice page [] p hp).resolve_left (by simp)
        · exact ih _ p hp

theorem zoo24ProcessItems_bound (sp : ℚ) (bs : List (List Char)) :
    ∀ (items : List ScrapedProduct) (seen : List (List Char)) (cnt : ℕ)
      (chunk : List ScrapedProduct) (p : ScrapedProduct),
    p ∈ (zoo24ProcessItems sp bs items seen cnt chunk).1 →
    p ∈ chunk ∨ exceedsCeiling sp p = false := by
  intro items
  induction items with
  | nil =>
    intro seen cnt chunk p hp
    exact Or.inl hp
  | cons q rest ih =>
    intro seen cnt chunk p hp
    rw [zoo24ProcessItems] at hp
    by_cases hsk : zoo24Skip bs q
    · rw [if_pos hsk] at hp
      exact ih seen cnt chunk p hp
    · rw [if_neg hsk] at hp
      by_cases hc : exceedsCeiling sp q
      · rw [if_pos hc] at hp
        by_cases h10 : cnt + 1 ≥ 10
        · rw [if_pos h10] at hp
          exact Or.inl hp
        · rw [if_neg h10] at hp
          exact ih seen (cnt + 1) chunk p hp
      · rw [if_neg hc] at hp
        by_cases hq : seen.contains q.externalId
        · rw [if_pos hq] at hp
          exact ih seen 0 chunk p hp
        · rw [if_neg hq] at hp
          rcases ih _ 0 _ p hp with h' | h'
          · rcases List.mem_append.mp h' with h' | h'
            · exact Or.inl h'
            · rw [List.mem_singleton] at h'
              subst h'
              exact Or.inr (by simpa using hc)
          · exact Or.inr h'

theorem zoo24ProcessItems_inv (sp : ℚ) (bs : List (List Char)) :
    ∀ (items : List ScrapedProduct) (seen : List (List Char)) (cnt : ℕ)
      (chunk : List ScrapedProduct),
    (chunk.map ScrapedProduct.externalId).Nodup →
    (∀ p ∈ chunk, p.externalId ∈ seen) →
    ((zoo24ProcessItems sp bs items seen cnt chunk).1.map ScrapedProduct.externalId).Nodup
    ∧ (∀ p ∈ (zoo24ProcessItems sp bs items seen cnt chunk).1,
        p.externalId ∈ (zoo24ProcessItems sp bs items seen cnt chunk).2.1)
    ∧ (∀ x ∈ seen, x ∈ (zoo24ProcessItems sp bs items seen cnt chunk).2.1)
    ∧ (∀ p ∈ (zoo24ProcessItems sp bs items seen cnt chunk).1,
        p ∈ chunk ∨ p.externalId ∉ seen) := by
  intro items
  induction items with
  | nil =>
    intro seen cnt chunk hnd hsub
    exact ⟨hnd, hsub, fun x hx => hx, fun p hp => Or.inl hp⟩
  | cons q rest ih =>
    intro seen cnt chunk hnd hsub
    rw [zoo24ProcessItems]
    by_cases hsk : zoo24Skip bs q
    · rw [if_pos hsk]
      exact ih seen cnt chunk hnd hsub
    · rw [if_neg hsk]
      by_cases hc : exceedsCeiling sp q
      · rw [if_pos hc]
        by_cases h10 : cnt + 1 ≥ 10
        · rw [if_pos h10]
          exact ⟨hnd, hsub, fun x hx => hx, fun p hp => Or.inl hp⟩
        · rw [if_neg h10]
          exact ih seen (cnt + 1) chunk hnd hsub
      · rw [if_neg hc]
        by_cases hq : seen.contains q.externalId
        · rw [if_pos hq]
          exact ih seen 0 chunk hnd hsub
        · rw [if_neg hq]
          have hqs : q.externalId ∉ seen := by simpa using hq
          have hnd' : ((chunk ++ [q]).map ScrapedProduct.externalId).Nodup := by
            rw [List.map_append, List.map_singleton, List.nodup_append]
            refine ⟨hnd, List.nodup_singleton _, ?_⟩
            intro x hx hxq
            rw [List.mem_singleton] at hxq
            subst hxq
            simp only [List.mem_map] at hx
            obtain ⟨p, hp, hpe⟩ := hx
            exact hqs (hpe ▸ hsub p hp)
          have hsub' : ∀ p ∈ chunk ++ [q], p.externalId ∈ seen ++ [q.externalId] := by
            intro p hp
            rcases List.mem_append.mp hp with hp | hp
            · exact List.mem_append_left _ (hsub p hp)
            · rw [List.mem_singleton] at hp
              subst hp
              exact List.mem_append_right _ (List.mem_singleton.mpr rfl)
          obtain ⟨h1, h2, h3, h4⟩ := ih (seen ++ [q.externalId]) 0 (chunk ++ [q]) hnd' hsub'
          refine ⟨h1, h2, ?_, ?_⟩
          · intro x hx
            exact h3 x (List.mem_append_left _ hx)
          · intro p hp
            rcases h4 p hp with h' | h'
            · rcases List.mem_append.mp h' with h' | h'
              · exact Or.inl h'
              · rw [List.mem_singleton] at h'
                subst h'
                exact Or.inr hqs
            · right
              intro hcm
              exact h' (List.mem_append_left _ hcm)

theorem zoo24Run_bound (sp : ℚ) (bs : List (List Char)) :
    ∀ (pages : List (List ScrapedProduct)) (seen : List (List Char)) (cnt n : ℕ)
      (p : ScrapedProduct),
    p ∈ (zoo24Run sp bs pages seen cnt n).flatten →
    exceedsCeiling sp p = false := by
  intro pages
  induction pages with
  | nil =>
    intro seen cnt n p hp
    simp [zoo24Run] at hp
  | cons page rest ih =>
    intro seen cnt n p hp
    unfold zoo24Run at hp
    by_cases hpe : page.isEmpty
    · rw [if_pos hpe] at hp
      simp at hp
    · rw [if_neg hpe] at hp
      by_cases hst : (zoo24ProcessItems sp bs page seen cnt []).2.2.2
      · rw [if_pos hst] at hp
        by_cases hce : (zoo24ProcessItems sp bs page seen cnt []).1.isEmpty
        · rw [if_pos hce] at hp
          simp at hp
        · rw [if_neg hce] at hp
          simp only [List.flatten_cons, List.flatten_nil, List.append_nil] at hp
          exact (zoo24ProcessItems_bound sp bs page seen cnt [] p hp).resolve_left (by simp)
      · rw [if_neg hst] at hp
        by_cases hce : (zoo24ProcessItems sp bs page seen cnt []).1.isEmpty
        · rw [if_pos hce] at hp
          by_cases hn : n > 3
          · rw [if_pos hn] at hp
            simp at hp
          · rw [if_neg hn] at hp
            exact ih _ _ _ p hp
        · rw [if_neg hce] at hp
          rw [List.flatten_cons, List.mem_append] at hp
          rcases hp with hp | hp
          · exact (zoo24ProcessItems_bound sp bs page seen cnt [] p hp).resolve_left (by simp)
          · exact ih _ _ _ p hp

theorem bsRun_nodup_aux :
    ∀ (pages : List (List ScrapedProduct)) (seen : List (List Char)),
    (((bsRun pages seen).flatten.map ScrapedProduct.externalId).Nodup)
    ∧ ∀ x ∈ (bsRun pages seen).flatten.map ScrapedProduct.externalId, x ∉ seen := by
  intro pages
  induction pages with
  | nil =>
    intro seen
    constructor
    · simp [bsRun]
    · intro x hx
      simp [bsRun] at hx
  | cons page rest ih =>
    intro seen
    unfold bsRun
    by_cases hpe : page.isEmpty
    · rw [if_pos hpe]
      exact ⟨by simp, by intro x hx; simp at hx⟩
    · rw [if_neg hpe]
      by_cases hce : (dedupChunk seen page).1.isEmpty
      · rw [if_pos hce]
        exact ⟨by simp, by intro x hx; simp at hx⟩
      · rw [if_neg hce]
        obtain ⟨hnd, hsub, hgrow, hfresh⟩ := dedupChunk_inv page seen
        obtain ⟨ihnd, ihfresh⟩ := ih (dedupChunk seen page).2
        rw [List.flatten_cons, List.map_append]
        constructor
        · rw [List.nodup_append]
          refine ⟨hnd, ihnd, ?_⟩
          intro x hx hx2
          simp only [List.mem_map] at hx
          obtain ⟨p, hp, rfl⟩ := hx
          exact ihfresh _ hx2 (hsub p hp)
        · intro x hx
          rcases List.mem_append.mp hx with hx | hx
          · simp only [List.mem_map] at hx
            obtain ⟨p, hp, rfl⟩ := hx
            exact hfresh p hp
          · intro hc
            exact ihfresh x hx (hgrow x hc)

theorem fressnapfRun_nodup_aux (maxPrice : Option ℚ) :
    ∀ (pages : List (List ScrapedProduct)) (seen : List (List Char)) (n : ℕ),
    (((fressnapfRun maxPrice pages seen n).flatten.map ScrapedProduct.externalId).Nodup)
    ∧ ∀ x ∈ (fressnapfRun maxPrice pages seen n).flatten.map ScrapedProduct.externalId,
        x ∉ seen := by
  intro pages
  induction pages with
  | nil =>
    intro seen n
    constructor
    · simp [fressnapfRun]
    · intro x hx
      simp [fressnapfRun] at hx
  | cons page rest ih =>
    intro seen n
    unfold fressnapfRun
    by_cases hpe : page.isEmpty
    · rw [if_pos hpe]
      exact ⟨by simp, by intro x hx; simp at hx⟩
    · rw [if_neg hpe]
      obtain ⟨hnd, hsub, hgrow, hfresh⟩ :=
        fressnapfPageStep_inv (effectiveScrapePrice maxPrice 15) page seen
      by_cases hce : (fressnapfPageStep (effectiveScrapePrice maxPrice 15) seen page).1.isEmpty
      · rw [if_pos hce]
        by_cases hn : n > 1
        · rw [if_pos hn]
          exact ⟨by simp, by intro x hx; simp at hx⟩
        · rw [if_neg hn]
          obtain ⟨ihnd, ihfresh⟩ :=
            ih (fressnapfPageStep (effectiveScrapePrice maxPrice 15) seen page).2 (n + 1)
          refine ⟨ihnd, ?_⟩
          intro x hx hc
          exact ihfresh x hx (hgrow x hc)
      · rw [if_neg hce]
        obtain ⟨ihnd, ihfresh⟩ :=
          ih (fressnapfPageStep (effectiveScrapePrice maxPrice 15) seen page).2 (n + 1)
        rw [List.flatten_cons, List.map_append]
        constructor
        · rw [List.nodup_append]
          refine ⟨hnd, ihnd, ?_⟩
          intro x hx hx2
          simp only [List.mem_map] at hx
          obtain ⟨p, hp, rfl⟩ := hx
          exact ihfresh _ hx2 (hsub p hp)
        · intro x hx
          rcases List.mem_append.mp hx with hx | hx
          · simp only [List.mem_map] at hx
            obtain ⟨p, hp, rfl⟩ := hx
            exact hfresh p hp
          · intro hc
            exact ihfresh x hx (hgrow x hc)

theorem zoo24Run_nodup_aux (sp : ℚ) (bs : List (List Char)) :
    ∀ (pages : List (List ScrapedProduct)) (seen : List (List Char)) (cnt n : ℕ),
    (((zoo24Run sp bs pages seen cnt n).flatten.map ScrapedProduct.externalId).Nodup)
    ∧ ∀ x ∈ (zoo24Run sp bs pages seen cnt n).flatten.map ScrapedProduct.externalId,
        x ∉ seen := by
  intro pages
  induction pages with
  | nil =>
    intro seen cnt n
    constructor
    · simp [zoo24Run]
    · intro x hx
      simp [zoo24Run] at hx
  | cons page rest ih =>
    intro seen cnt n
    unfold zoo24Run
    by_cases hpe : page.isEmpty
    · rw [if_pos hpe]
      exact ⟨by simp, by intro x hx; simp at hx⟩
    · rw [if_neg hpe]
      obtain ⟨hnd, hsub, hgrow, hfresh⟩ :=
        zoo24ProcessItems_inv sp bs page seen cnt [] (by simp) (by simp)
      have hfresh' : ∀ p ∈ (zoo24ProcessItems sp bs page seen cnt []).1,
          p.externalId ∉ seen := fun p hp => (hfresh p hp).resolve_left (by simp)
      by_cases hst : (zoo24ProcessItems sp bs page seen cnt []).2.2.2
      · rw [if_pos hst]
        by_cases hce : (zoo24ProcessItems sp bs page seen cnt []).1.isEmpty
        · rw [if_pos hce]
          exact ⟨by simp, by intro x hx; simp at hx⟩
        · rw [if_neg hce]
          simp only [List.flatten_cons, List.flatten_nil, List.append_nil]
          refine ⟨hnd, ?_⟩
          intro x hx
          simp only [List.mem_map] at hx
          obtain ⟨p, hp, rfl⟩ := hx
          exact hfresh' p hp
      · rw [if_neg hst]
        by_cases hce : (zoo24ProcessItems sp bs page seen cnt []).1.isEmpty
        · rw [if_pos hce]
          by_cases hn : n > 3
          · rw [if_pos hn]
            exact ⟨by simp, by intro x hx; simp at hx⟩
          · rw [if_neg hn]
            obtain ⟨ihnd, ihfresh⟩ := ih (zoo24ProcessItems sp bs page seen cnt []).2.1
              (zoo24ProcessItems sp bs page seen cnt []).2.2.1 (n + 1)
            refine ⟨ihnd, ?_⟩
            intro x hx hc
            exact ihfresh x hx (hgrow x hc)
        · rw [if_neg hce]
          obtain ⟨ihnd, ihfresh⟩ := ih (zoo24ProcessItems sp bs page seen cnt []).2.1
            (zoo24ProcessItems sp bs page seen cnt []).2.2.1 (n + 1)
          rw [List.flatten_cons, List.map_append]
          constructor
          · rw [List.nodup_append]
            refine ⟨hnd, ihnd, ?_⟩
            intro x hx hx2
            simp only [List.mem_map] at hx
            obtain ⟨p, hp, rfl⟩ := hx
            exact ihfresh _ hx2 (hsub p hp)
          · intro x hx
            rcases List.mem_append.mp hx with hx | hx
            · simp only [List.mem_map] at hx
              obtain ⟨p, hp, rfl⟩ := hx
              exact hfresh' p hp
            · intro hc
              exact ihfresh x hx (hgrow x hc)

theorem zooroyalConsume_nodup_aux :
    ∀ (incoming : List (List ScrapedProduct)) (out0 : List (List ScrapedProduct))
      (seen0 : List (List Char)),
    ((out0.flatten.map ScrapedProduct.externalId).Nodup) →
    (∀ x ∈ out0.flatten.map ScrapedProduct.externalId, x ∈ seen0) →
    (((incoming.foldl
        (fun acc item =>
          (acc.1 ++ (if (dedupChunk acc.2 item).1.isEmpty then []
                     else [(dedupChunk acc.2 item).1]),
           (dedupChunk acc.2 item).2))
        (out0, seen0)).1.flatten.map ScrapedProduct.externalId).Nodup) := by
  intro incoming
  induction incoming with
  | nil =>
    intro out0 seen0 hnd _
    exact hnd
  | cons item rest ih =>
    intro out0 seen0 hnd hsub
    rw [List.foldl_cons]
    obtain ⟨cnd, csub, cgrow, cfresh⟩ := dedupChunk_inv item seen0
    apply ih
    · by_cases hce : (dedupChunk seen0 item).1.isEmpty
      · rw [if_pos hce]
        simpa using hnd
      · rw [if_neg hce]
        rw [List.flatten_append, List.map_append]
        rw [List.nodup_append]
        refine ⟨hnd, by simpa using cnd, ?_⟩
        intro x hx hx2
        simp only [List.flatten_cons, List.flatten_nil, List.append_nil] at hx2
        simp only [List.mem_map] at hx2
        obtain ⟨p, hp, rfl⟩ := hx2
        exact cfresh p hp (hsub _ hx)
    · intro x hx
      by_cases hce : (dedupChunk seen0 item).1.isEmpty
      · rw [if_pos hce] at hx
        simp only [List.append_nil] at hx
        exact cgrow x (hsub x hx)
      · rw [if_neg hce] at hx
        rw [List.flatten_append, List.map_append] at hx
        rcases List.mem_append.mp hx with hx | hx
        · exact cgrow x (hsub x hx)
        · simp only [List.flatten_cons, List.flatten_nil, List.append_nil] at hx
          simp only [List.mem_map] at hx
          obtain ⟨p, hp, rfl⟩ := hx
          exact csub p hp

theorem exceeds_false_bound {sp : ℚ} {p : ScrapedProduct}
    (h : exceedsCeiling sp p = false)
    (ht : truthy (orQ p.reducedPricePerKg p.originalPricePerKg) = true) :
    (orQ p.reducedPricePerKg p.originalPricePerKg).getD 0 ≤ sp * (13/10) := by
  simp only [exceedsCeiling] at h
  rw [ht, Bool.true_and] at h
  simpa using h

def c5p : ScrapedProduct :=
  { externalId := "zooplus:1".data
    brand := some "Leonardo".data
    currentPrice := 48
    originalPrice := some 48
    isOnSale := false
    url := "u".data
    site := "zooplus".data
    weightGrams := some 2400
    originalPricePerKg := some 20
    reducedPricePerKg := none }

/-- C5 counterexample: the Site A/B page loop applies no client-side
price filter — a parsed product whose price-per-kg (20 €/kg) exceeds
1.3× the effective ceiling (10 €/kg → 13 €/kg) is emitted anyway.  (The
ceiling is delegated to a server-side URL filter whose bound is
`int(ceiling/0.7)+1 = 15`, not 1.3× = 13.) -/
theorem c5_counterexample :
    bsRun [[c5p]] [] = [[c5p]]
    ∧ exceedsCeiling (effectiveScrapePrice (some 10) 10) c5p = true := by
  constructor
  · simp [bsRun, dedupChunk, dedupStep, c5p]
  · norm_num [exceedsCeiling, effectiveScrapePrice, orQ, truthy, c5p]

def c5pF : ScrapedProduct :=
  { externalId := "fressnapf:1".data
    brand := some "Leonardo".data
    currentPrice := 4
    originalPrice := some 4
    isOnSale := false
    url := "u".data
    site := "fressnapf".data
    weightGrams := some 400
    originalPricePerKg := some 10
    reducedPricePerKg := none }

theorem c5_fress_emit :
    c5pF ∈ (fressnapfRun (some 10) [[c5pF]] [] 1).flatten := by
  norm_num [fressnapfRun, fressnapfPageStep, fressnapfStep, dedupStep,
    exceedsCeiling, orQ, truthy, effectiveScrapePrice, c5pF]

def c5zrTile : ZooroyalTile :=
  { externalId := "zooroyal:leonardo-katze-400g".data
    url := "https://www.zooroyal.de/leonardo-katze-400g".data
    name := "Leonardo Katze 400 g".data
    brandText := "Leonardo".data
    sizeText := "400 g".data
    ariaPrice := some 3
    badgeDiscount := none }

/-- The record `zooroyalConvert` produces on `c5zrTile`: the price fields
are written verbatim as the converter computes them. -/
def c5zrRec : ScrapedProduct :=
  { externalId := "zooroyal:leonardo-katze-400g".data
    brand := some "Leonardo".data
    currentPrice := 3
    originalPrice := some 3
    isOnSale := false
    url := "https://www.zooroyal.de/leonardo-katze-400g".data
    site := "zooroyal".data
    weightGrams := parseWeightGrams ("Leonardo Katze 400 g".data ++ ' ' :: "400 g".data)
    originalPricePerKg :=
      calculatePricePerKg 3 (parseWeightGrams ("Leonardo Katze 400 g".data ++ ' ' :: "400 g".data))
    reducedPricePerKg := none }

theorem c5zr_eval : zooroyalConvert c5zrTile = some c5zrRec := by
  rfl

theorem c5zr_origPpk : c5zrRec.originalPricePerKg = some (15/2) := by
  have hw : parseWeightGrams ("Leonardo Katze 400 g".data ++ ' ' :: "400 g".data)
      = some 400 := by decide
  simp only [c5zrRec, hw]
  norm_num [calculatePricePerKg, round2, pyRound]

theorem c5zr_orq :
    orQ c5zrRec.reducedPricePerKg c5zrRec.originalPricePerKg = some (15/2) := by
  have h2 := c5zr_origPpk
  have h1 : c5zrRec.reducedPricePerKg = none := rfl
  rw [orQ, h1, h2]
  norm_num [truthy]

theorem c5zr_exceeds :
    exceedsCeiling (effectiveScrapePrice (some 10) 10) c5zrRec = false := by
  simp only [exceedsCeiling, c5zr_orq]
  norm_num [truthy, effectiveScrapePrice]

theorem c5zr_emit :
    c5zrRec ∈ (zooroyalBrandRun (some 10) [[c5zrTile]] 1).flatten := by
  simp [zooroyalBrandRun, zooroyalBrandPageChunk, zooroyalTileStep,
    c5zr_eval, c5zr_exceeds]

def c5p24 : ScrapedProduct :=
  { externalId := "zoo24:leonardo-katze".data
    brand := some "Leonardo".data
    currentPrice := 4
    originalPrice := some 4
    isOnSale := false
    url := "u".data
    site := "zoo24".data
    weightGrams := some 400
    originalPricePerKg := some 10
    reducedPricePerKg := none }

theorem c5p24_skip : zoo24Skip (zoo24BrandSet [] true) c5p24 = false := by decide

theorem c5p24_exceeds : exceedsCeiling 10 c5p24 = false := by
  norm_num [exceedsCeiling, orQ, truthy, c5p24]

theorem c5p24_emit :
    c5p24 ∈ (zoo24Run 10 (zoo24BrandSet [] true) [[c5p24]] [] 0 1).flatten := by
  simp [zoo24Run, zoo24ProcessItems, c5p24_skip, c5p24_exceeds]

/-- C5 (amended): the Fressnapf, Zooroyal and Zoo24 loops never emit an
offer whose derived price-per-kg exceeds 1.3× their effective ceiling
(`max(requested, site default)` — default 15 for Fressnapf, 10
otherwise); the Site A/B adapter instead requests a server-side per-kg
filter bounded by `int(ceiling/0.7)+1` (15 for ceiling 10) and applies
no client-side filter (see the counterexample). -/
theorem c5_price_filter :
    (∀ (maxPrice : Option ℚ) (pages : List (List ScrapedProduct))
        (seen : List (List Char)) (n : ℕ) (p : ScrapedProduct),
      p ∈ (fressnapfRun maxPrice pages seen n).flatten →
      truthy (orQ p.reducedPricePerKg p.originalPricePerKg) = true →
      (orQ p.reducedPricePerKg p.originalPricePerKg).getD 0
        ≤ effectiveScrapePrice maxPrice 15 * (13/10))
    ∧ (∀ (maxPrice : Option ℚ) (pages : List (List ZooroyalTile)) (n : ℕ)
        (p : ScrapedProduct),
      p ∈ (zooroyalBrandRun maxPrice pages n).flatten →
      truthy (orQ p.reducedPricePerKg p.originalPricePerKg) = true →
      (orQ p.reducedPricePerKg p.originalPricePerKg).getD 0
        ≤ effectiveScrapePrice maxPrice 10 * (13/10))
    ∧ (∀ (sp : ℚ) (bs : List (List Char)) (pages : List (List ScrapedProduct))
        (seen : List (List Char)) (cnt n : ℕ) (p : ScrapedProduct),
      p ∈ (zoo24Run sp bs pages seen cnt n).flatten →
      truthy (orQ p.reducedPricePerKg p.originalPricePerKg) = true →
      (orQ p.reducedPricePerKg p.originalPricePerKg).getD 0 ≤ sp * (13/10))
    ∧ bsFetchMax (some 10) = 15 := by
  refine ⟨?_, ?_, ?_, ?_⟩
  · intro maxPrice pages seen n p hp ht
    exact exceeds_false_bound (fressnapfRun_bound maxPrice pages seen n p hp) ht
  · intro maxPrice pages n p hp ht
    exact exceeds_false_bound (zooroyalBrandRun_bound maxPrice pages n p hp) ht
  · intro sp bs pages seen cnt n p hp ht
    exact exceeds_false_bound (zoo24Run_bound sp bs pages seen cnt n p hp) ht
  · norm_num [bsFetchMax, effectiveScrapePrice]

/-- C5 witness: the amended theorem applied at one concretely emitted
offer of each of the three filtering adapters. -/
theorem c5_price_filter_witness :
    ((orQ c5pF.reducedPricePerKg c5pF.originalPricePerKg).getD 0
      ≤ effectiveScrapePrice (some 10) 15 * (13/10))
    ∧ ((orQ c5zrRec.reducedPricePerKg c5zrRec.originalPricePerKg).getD 0
      ≤ effectiveScrapePrice (some 10) 10 * (13/10))
    ∧ ((orQ c5p24.reducedPricePerKg c5p24.originalPricePerKg).getD 0
      ≤ 10 * (13/10)) :=
  ⟨c5_price_filter.1 (some 10) [[c5pF]] [] 1 c5pF c5_fress_emit (by decide),
   c5_price_filter.2.1 (some 10) [[c5zrTile]] 1 c5zrRec c5zr_emit
     (by rw [c5zr_orq]; norm_num [truthy]),
   c5_price_filter.2.2.1 10 (zoo24BrandSet [] true) [[c5p24]] [] 0 1 c5p24
     c5p24_emit (by decide)⟩

/-- C10: within a single invocation of each adapter's chunk stream —
the Site A/B page loop, the Fressnapf page loop, the Zooroyal fan-in
consumer (which dedups the parallel producers' chunks), and the Zoo24
scan — every external id appears at most once across all yielded chunks. -/
theorem c10_unique_emission :
    (∀ pages : List (List ScrapedProduct),
      ((bsRun pages []).flatten.map ScrapedProduct.externalId).Nodup)
    ∧ (∀ (maxPrice : Option ℚ) (pages : List (List ScrapedProduct)),
      ((fressnapfRun maxPrice pages [] 1).flatten.map ScrapedProduct.externalId).Nodup)
    ∧ (∀ incoming : List (List ScrapedProduct),
      ((zooroyalConsume incoming).flatten.map ScrapedProduct.externalId).Nodup)
    ∧ (∀ (sp : ℚ) (bs : List (List Char)) (pages : List (List ScrapedProduct)),
      ((zoo24Run sp bs pages [] 0 1).flatten.map ScrapedProduct.externalId).Nodup) :=
  ⟨fun pages => (bsRun_nodup_aux pages []).1,
   fun mp pages => (fressnapfRun_nodup_aux mp pages [] 1).1,
   fun incoming => zooroyalConsume_nodup_aux incoming [] [] (by simp)
     (by intro x hx; simp at hx),
   fun sp bs pages => (zoo24Run_nodup_aux sp bs pages [] 0 1).1⟩

/-- C9: Zoo24 early termination.  (i) A qualifying (brand-matching)
item at or under the 1.3× ceiling resets the consecutive counter to 0;
(ii) a run of qualifying over-ceiling items long enough to push the
counter to 10 makes the item loop stop, returning the chunk in progress
and the seen set unchanged by those items, independently of whatever
items follow; (iii) once the item loop of a page reports a stop, the
page loop yields only that page's in-progress chunk (when non-empty) and
fetches no further pages. -/
theorem c9_early_termination :
    (∀ (sp : ℚ) (bs : List (List Char)) (p : ScrapedProduct)
        (rest : List ScrapedProduct) (seen : List (List Char)) (cnt : ℕ)
        (chunk : List ScrapedProduct),
      zoo24Skip bs p = false → exceedsCeiling sp p = false →
      zoo24ProcessItems sp bs (p :: rest) seen cnt chunk
        = zoo24ProcessItems sp bs rest
            (if seen.contains p.externalId then seen else seen ++ [p.externalId]) 0
            (if seen.contains p.externalId then chunk else chunk ++ [p]))
    ∧ (∀ (sp : ℚ) (bs : List (List Char)) (es rest : List ScrapedProduct)
        (seen : List (List Char)) (cnt : ℕ) (chunk : List ScrapedProduct),
      es ≠ [] → 10 ≤ cnt + es.length →
      (∀ p ∈ es, zoo24Skip bs p = false ∧ exceedsCeiling sp p = true) →
      ∃ cnt', zoo24ProcessItems sp bs (es ++ rest) seen cnt chunk
        = (chunk, seen, cnt', true))
    ∧ (∀ (sp : ℚ) (bs : List (List Char)) (page : List ScrapedProduct)
        (rest : List (List ScrapedProduct)) (seen : List (List Char))
        (cnt pageNum : ℕ),
      page.isEmpty = false →
      (zoo24ProcessItems sp bs page seen cnt []).2.2.2 = true →
      zoo24Run sp bs (page :: rest) seen cnt pageNum
        = if (zoo24ProcessItems sp bs page seen cnt []).1.isEmpty then []
          else [(zoo24ProcessItems sp bs page seen cnt []).1]) := by
  refine ⟨?_, ?_, ?_⟩
  · intro sp bs p rest seen cnt chunk h1 h2
    rw [zoo24ProcessItems, h1, h2]
    simp only [Bool.false_eq_true, if_false]
    by_cases hq : seen.contains p.externalId
    · rw [if_pos hq, if_pos hq, if_pos hq]
    · rw [if_neg hq, if_neg hq, if_neg hq]
  · intro sp bs es
    induction es with
    | nil =>
      intro rest seen cnt chunk hne _ _
      exact absurd rfl hne
    | cons e es' ih =>
      intro rest seen cnt chunk hne hlen hall
      have he := hall e (List.mem_cons_self _ _)
      rw [List.cons_append, zoo24ProcessItems, he.1, he.2]
      simp only [Bool.false_eq_true, if_false, if_true]
      by_cases h10 : cnt + 1 ≥ 10
      · rw [if_pos h10]
        exact ⟨cnt + 1, rfl⟩
      · rw [if_neg h10]
        have hne' : es' ≠ [] := by
          intro hc
          subst hc
          simp only [List.length_cons, List.length_nil] at hlen
          omega
        have hlen' : 10 ≤ (cnt + 1) + es'.length := by
          simp only [List.length_cons] at hlen
          omega
        exact ih rest seen (cnt + 1) chunk hne' hlen'
          (fun p hp => hall p (List.mem_cons_of_mem _ hp))
  · intro sp bs page rest seen cnt pageNum hpe hst
    rw [zoo24Run, hpe, hst]
    simp

def c9pE : ScrapedProduct :=
  { externalId := "zoo24:teuer".data
    brand := some "Leonardo".data
    currentPrice := 8
    originalPrice := some 8
    isOnSale := false
    url := "u".data
    site := "zoo24".data
    weightGrams := some 400
    originalPricePerKg := some 20
    reducedPricePerKg := none }

/-- C9 witness: ten consecutive over-ceiling Leonardo items stop the
scan; a following page of acceptable items is never reached. -/
theorem c9_early_termination_witness :
    (∃ cnt', zoo24ProcessItems 10 (zoo24BrandSet [] true)
        (List.replicate 10 c9pE) [] 0 [] = ([], [], cnt', true))
    ∧ zoo24Run 10 (zoo24BrandSet [] true) [List.replicate 10 c9pE, [c5p24]] [] 0 1 = [] := by
  have hall : ∀ p ∈ List.replicate 10 c9pE,
      zoo24Skip (zoo24BrandSet [] true) p = false ∧ exceedsCeiling 10 p = true := by
    intro p hp
    rw [List.eq_of_mem_replicate hp]
    exact ⟨by decide, by norm_num [exceedsCeiling, orQ, truthy, c9pE]⟩
  obtain ⟨cnt', hstop⟩ := c9_early_termination.2.1 10 (zoo24BrandSet [] true)
    (List.replicate 10 c9pE) [] [] 0 [] (by simp) (by simp) hall
  rw [List.append_nil] at hstop
  refine ⟨⟨cnt', hstop⟩, ?_⟩
  have hrun := c9_early_termination.2.2 10 (zoo24BrandSet [] true) (List.replicate 10 c9pE)
    [[c5p24]] [] 0 1 (by simp) (by rw [hstop])
  rw [hrun, hstop]
  simp

/-! ### C6: candidate price exclusion and the max/min pair -/

theorem foldl_max_mem : ∀ (l : List ℚ) (a : ℚ), l.foldl max a ∈ a :: l := by
  intro l
  induction l with
  | nil => intro a; exact List.mem_singleton.mpr rfl
  | cons b t ih =>
    intro a
    rw [List.foldl_cons]
    rcases List.mem_cons.mp (ih (max a b)) with h | h
    · rw [h]
      rcases max_choice a b with h' | h'
      · rw [h']; exact List.mem_cons_self _ _
      · rw [h']; exact List.mem_cons_of_mem _ (List.mem_cons_self _ _)
    · exact List.mem_cons_of_mem _ (List.mem_cons_of_mem _ h)

theorem foldl_min_mem : ∀ (l : List ℚ) (a : ℚ), l.foldl min a ∈ a :: l := by
  intro l
  induction l with
  | nil => intro a; exact List.mem_singleton.mpr rfl
  | cons b t ih =>
    intro a
    rw [List.foldl_cons]
    rcases List.mem_cons.mp (ih (min a b)) with h | h
    · rw [h]
      rcases min_choice a b with h' | h'
      · rw [h']; exact List.mem_cons_self _ _
      · rw [h']; exact List.mem_cons_of_mem _ (List.mem_cons_self _ _)
    · exact List.mem_cons_of_mem _ (List.mem_cons_of_mem _ h)

/-- C6 counterexample: on a tile whose two surviving candidate euro
amounts are 20 and 15 but which also shows a truthy Mixpaket price,
the Mixpaket price becomes the original price and no current price is
derived from the candidates, so the parser returns no record at all -
the larger/smaller assignment claimed for "exactly two remaining
candidates" does not happen. -/
theorem c6_counterexample :
    bsActualPrices c6Tile = [20, 15]
    ∧ bsParse "zooplus".data c6Tile = none := by
  constructor
  · decide
  · decide

/-- C6 (amended): amounts recognised as per-unit, Einzeln, UVP or Abo
prices (or equal to zero) are excluded from the candidate product
prices; when no truthy Mixpaket price is present, exactly two
remaining candidates yield (max, min) as the (original, current)
pair and a single candidate becomes both; and on a tile without a
discount badge the emitted record carries exactly that pair. -/
theorem c6_price_pair :
    (∀ (t : BSTile), ∀ p ∈ bsActualPrices t,
      p ∈ t.allPrices ∧ p ≠ 0 ∧ memQ p t.perUnitPrices = false
        ∧ memQ p t.einzelnPrices = false
        ∧ memQ p t.uvpPrices = false ∧ memQ p t.aboPrices = false)
    ∧ (∀ (t : BSTile) (a b : ℚ), truthy t.mixpaketPrice = false →
        bsActualPrices t = [a, b] →
        bsPrices t = (some (max a b), some (min a b)))
    ∧ (∀ (t : BSTile) (a : ℚ), truthy t.mixpaketPrice = false →
        bsActualPrices t = [a] →
        bsPrices t = (some a, some a))
    ∧ (∀ (site : List Char) (t : BSTile) (r : ScrapedProduct),
        t.discountPercent = none → bsParse site t = some r →
        r.originalPrice = (bsPrices t).1 ∧ some r.currentPrice = (bsPrices t).2) := by
  refine ⟨?_, ?_, ?_, ?_⟩
  · intro t p hp
    unfold bsActualPrices at hp
    rw [List.mem_filter] at hp
    refine ⟨hp.1, ?_⟩
    have h := hp.2
    simp only [Bool.and_eq_true, bne_iff_ne, ne_eq, Bool.not_eq_true'] at h
    exact ⟨h.1.1.1.1, h.1.1.1.2, h.1.1.2, h.1.2, h.2⟩
  · intro t a b hmix hact
    cases hm : t.mixpaketPrice with
    | none =>
      simp only [bsPrices, hm, hact]
      simp [bsPrices.bsPricesFromActual]
    | some m =>
      rw [hm] at hmix
      have hm0 : m = 0 := by simpa [truthy] using hmix
      subst hm0
      simp only [bsPrices, hm, hact]
      simp [bsPrices.bsPricesFromActual]
  · intro t a hmix hact
    cases hm : t.mixpaketPrice with
    | none =>
      simp only [bsPrices, hm, hact]
      simp [bsPrices.bsPricesFromActual]
    | some m =>
      rw [hm] at hmix
      have hm0 : m = 0 := by simpa [truthy] using hmix
      subst hm0
      simp only [bsPrices, hm, hact]
      simp [bsPrices.bsPricesFromActual]
  · intro site t r hd hr
    simp only [bsParse, hd] at hr
    by_cases h1 : t.name.length < 3
    · rw [if_pos h1] at hr; exact absurd hr (by simp)
    · rw [if_neg h1] at hr
      by_cases h2 : t.unavailable
      · rw [if_pos h2] at hr; exact absurd hr (by simp)
      · rw [if_neg h2] at hr
        by_cases h3 : truthy (bsPrices t).2
        · rw [h3] at hr
          simp only [Bool.not_true, Bool.false_eq_true, if_false] at hr
          by_cases h4 : isWetFoodBase t.name t.url
          · rw [h4] at hr
            simp only [Bool.not_true, Bool.false_eq_true, if_false,
              Option.some.injEq] at hr
            subst hr
            simp only
            cases hp2 : (bsPrices t).2 with
            | none => rw [hp2] at h3; simp [truthy] at h3
            | some c => simp
          · rw [Bool.not_eq_true] at h4
            rw [h4] at hr
            simp at hr
        · rw [Bool.not_eq_true] at h3
          rw [h3] at hr
          simp at hr

/-- C6 witness: the amended theorem applied to concrete two-candidate
and one-candidate tiles. -/
theorem c6_price_pair_witness :
    ((25 : ℚ) ∈ c6wTile.allPrices ∧ (25 : ℚ) ≠ 0
      ∧ memQ 25 c6wTile.perUnitPrices = false
      ∧ memQ 25 c6wTile.einzelnPrices = false
      ∧ memQ 25 c6wTile.uvpPrices = false
      ∧ memQ 25 c6wTile.aboPrices = false)
    ∧ bsPrices c6wTile = (some (max (25 : ℚ) 18), some (min (25 : ℚ) 18))
    ∧ bsPrices c6sTile = (some (9 : ℚ), some (9 : ℚ))
    ∧ (c6wRec.originalPrice = (bsPrices c6wTile).1
        ∧ some c6wRec.currentPrice = (bsPrices c6wTile).2) := by
  refine ⟨c6_price_pair.1 c6wTile 25 (by decide),
    c6_price_pair.2.1 c6wTile 25 18 (by decide) (by decide),
    c6_price_pair.2.2.1 c6sTile 9 (by decide) (by decide),
    c6_price_pair.2.2.2 ("bitiba".data) c6wTile c6wRec rfl (by rfl)⟩


/-! ### C1: positivity of the current price and the per-kg pair order -/

theorem round2_le_of_cent {a b : ℚ} (hab : a ≤ b) (hb : IsCent b) :
    round2 a ≤ b := by
  have := round2_mono hab
  rwa [round2_cent_fix hb] at this

theorem cent_le_round2 {a b : ℚ} (hab : a ≤ b) (ha : IsCent a) :
    a ≤ round2 b := by
  have := round2_mono hab
  rwa [round2_cent_fix ha] at this

theorem bsActualPrices_sub {t : BSTile} {p : ℚ} (hp : p ∈ bsActualPrices t) :
    p ∈ t.allPrices ∧ p ≠ 0 := by
  unfold bsActualPrices at hp
  rw [List.mem_filter] at hp
  refine ⟨hp.1, ?_⟩
  have h := hp.2
  simp only [Bool.and_eq_true, bne_iff_ne, ne_eq] at h
  exact h.1.1.1.1

theorem fromActual_snd_mem : ∀ {l : List ℚ} {c : ℚ},
    (bsPrices.bsPricesFromActual l).2 = some c → c ∈ l := by
  intro l c h
  match l with
  | [] => exact absurd h (by simp [bsPrices.bsPricesFromActual])
  | [p] =>
    simp only [bsPrices.bsPricesFromActual, Option.some.injEq] at h
    rw [← h]
    exact List.mem_singleton.mpr rfl
  | p :: q :: rest =>
    simp only [bsPrices.bsPricesFromActual, Option.some.injEq] at h
    rw [← h]
    exact foldl_min_mem (q :: rest) p

theorem fromActual_fst_mem : ∀ {l : List ℚ} {c : ℚ},
    (bsPrices.bsPricesFromActual l).1 = some c → c ∈ l := by
  intro l c h
  match l with
  | [] => exact absurd h (by simp [bsPrices.bsPricesFromActual])
  | [p] =>
    simp only [bsPrices.bsPricesFromActual, Option.some.injEq] at h
    rw [← h]
    exact List.mem_singleton.mpr rfl
  | p :: q :: rest =>
    simp only [bsPrices.bsPricesFromActual, Option.some.injEq] at h
    rw [← h]
    exact foldl_max_mem (q :: rest) p

theorem bsPrices_snd_mem {t : BSTile} {c : ℚ} (h : (bsPrices t).2 = some c) :
    c ∈ bsActualPrices t := by
  cases hm : t.mixpaketPrice with
  | some m =>
    by_cases hm0 : (m != 0) = true
    · simp only [bsPrices, hm, if_pos hm0] at h
      exact absurd h (by simp)
    · simp only [bsPrices, hm, if_neg hm0] at h
      exact fromActual_snd_mem h
  | none =>
    simp only [bsPrices, hm] at h
    exact fromActual_snd_mem h

theorem bsPrices_fst_mem {t : BSTile} {c : ℚ} (h : (bsPrices t).1 = some c) :
    c ∈ bsActualPrices t ∨ t.mixpaketPrice = some c := by
  cases hm : t.mixpaketPrice with
  | some m =>
    by_cases hm0 : (m != 0) = true
    · simp only [bsPrices, hm, if_pos hm0] at h
      simp only [Option.some.injEq] at h
      subst h
      exact Or.inr rfl
    · simp only [bsPrices, hm, if_neg hm0] at h
      exact Or.inl (fromActual_fst_mem h)
  | none =>
    simp only [bsPrices, hm] at h
    exact Or.inl (fromActual_fst_mem h)

theorem bsPpk_le {t : BSTile}
    (hKg : ∀ p ∈ t.perKgPrices, 0 ≤ p ∧ IsCent p)
    {x y : ℚ} (hx : bsReducedPpk t = some x) (hy : bsOrigPpk t = some y) :
    x ≤ y := by
  unfold bsReducedPpk at hx
  cases hd : t.discountPercent with
  | none => rw [hd] at hx; exact absurd hx (by simp)
  | some d =>
    rw [hd] at hx
    simp only [hy] at hx
    by_cases ho : (y != 0) = true
    · rw [if_pos ho] at hx
      simp only [Option.some.injEq] at hx
      have hmem : y ∈ t.perKgPrices := by
        unfold bsOrigPpk at hy
        exact List.mem_of_find?_eq_some hy
      obtain ⟨hy0, hyC⟩ := hKg y hmem
      have hle : y * (1 - (d : ℚ) / 100) ≤ y := by
        have hd0 : (0 : ℚ) ≤ (d : ℚ) / 100 := by positivity
        nlinarith
      rw [← hx]
      exact round2_le_of_cent hle hyC
    · rw [if_neg ho] at hx
      exact absurd hx (by simp)

theorem bsParse_pos_aux (site : List Char) (t : BSTile) (r : ScrapedProduct)
    (hAll : ∀ p ∈ t.allPrices, 0 ≤ p)
    (hMix : ∀ m, t.mixpaketPrice = some m → 0 ≤ m)
    (hDisc : ∀ d, t.discountPercent = some d → (d : ℚ) ≤ 100)
    (hr : bsParse site t = some r) :
    0 < r.currentPrice := by
  have hsnd : ∀ c : ℚ, (bsPrices t).2 = some c → 0 < c := by
    intro c hc
    have hmem := bsPrices_snd_mem hc
    obtain ⟨hall, hne⟩ := bsActualPrices_sub hmem
    exact lt_of_le_of_ne (hAll c hall) (Ne.symm hne)
  cases hd : t.discountPercent with
  | none =>
    simp only [bsParse, hd] at hr
    split at hr
    · exact absurd hr (by simp)
    split at hr
    · exact absurd hr (by simp)
    split at hr
    · exact absurd hr (by simp)
    rename_i h3
    split at hr
    · exact absurd hr (by simp)
    rw [Option.some.injEq] at hr
    rw [← hr]
    simp only
    rw [Bool.not_eq_true', Bool.not_eq_false] at h3
    cases hp2 : (bsPrices t).2 with
    | none => rw [hp2] at h3; exact absurd h3 (by simp [truthy])
    | some c =>
      simp only [Option.getD_some]
      exact hsnd c hp2
  | some d =>
    simp only [bsParse, hd] at hr
    split at hr
    · exact absurd hr (by simp)
    split at hr
    · exact absurd hr (by simp)
    split at hr
    case isTrue =>
      rename_i hb
      simp only at hr
      split at hr
      · exact absurd hr (by simp)
      rename_i hz
      split at hr
      · exact absurd hr (by simp)
      rw [Option.some.injEq] at hr
      rw [← hr]
      simp only
      rw [Bool.not_eq_true', Bool.not_eq_false] at hz
      have hzne : round2 ((bsPrices t).1.getD 0 * (1 - (d : ℚ) / 100)) ≠ 0 := by
        simpa [truthy] using hz
      have hoT : truthy (bsPrices t).1 = true := by
        have hb2 := hb
        simp only [Bool.and_eq_true] at hb2
        exact hb2.2
      cases hp1 : (bsPrices t).1 with
      | none => rw [hp1] at hoT; exact absurd hoT (by simp [truthy])
      | some o =>
        rw [hp1] at hzne
        simp only [Option.getD_some] at hzne ⊢
        have hoNN : 0 ≤ o := by
          rcases bsPrices_fst_mem hp1 with hmem | hmix
          · exact hAll o (bsActualPrices_sub hmem).1
          · exact hMix o hmix
        have hfac : (0 : ℚ) ≤ 1 - (d : ℚ) / 100 := by
          have := hDisc d hd
          linarith
        have hNN : 0 ≤ round2 (o * (1 - (d : ℚ) / 100)) :=
          round2_nonneg (mul_nonneg hoNN hfac)
        exact lt_of_le_of_ne hNN (Ne.symm hzne)
    case isFalse =>
      rename_i hb
      simp only at hr
      split at hr
      · exact absurd hr (by simp)
      rename_i h3
      split at hr
      · exact absurd hr (by simp)
      rw [Option.some.injEq] at hr
      rw [← hr]
      simp only
      rw [Bool.not_eq_true', Bool.not_eq_false] at h3
      cases hp2 : (bsPrices t).2 with
      | none => rw [hp2] at h3; exact absurd h3 (by simp [truthy])
      | some c =>
        simp only [Option.getD_some]
        exact hsnd c hp2

theorem bsParse_ppk_aux (site : List Char) (t : BSTile) (r : ScrapedProduct)
    (hKg : ∀ p ∈ t.perKgPrices, 0 ≤ p ∧ IsCent p)
    (hr : bsParse site t = some r) :
    ∀ x y, r.reducedPricePerKg = some x → r.originalPricePerKg = some y → x ≤ y := by
  have hred : r.reducedPricePerKg = bsReducedPpk t ∧ r.originalPricePerKg = bsOrigPpk t := by
    cases hd : t.discountPercent with
    | none =>
      simp only [bsParse, hd] at hr
      split at hr
      · exact absurd hr (by simp)
      split at hr
      · exact absurd hr (by simp)
      split at hr
      · exact absurd hr (by simp)
      split at hr
      · exact absurd hr (by simp)
      rw [Option.some.injEq] at hr
      rw [← hr]
      exact ⟨rfl, rfl⟩
    | some d =>
      simp only [bsParse, hd] at hr
      split at hr
      · exact absurd hr (by simp)
      split at hr
      · exact absurd hr (by simp)
      split at hr
      case isTrue =>
        simp only at hr
        split at hr
        · exact absurd hr (by simp)
        split at hr
        · exact absurd hr (by simp)
        rw [Option.some.injEq] at hr
        rw [← hr]
        exact ⟨rfl, rfl⟩
      case isFalse =>
        simp only at hr
        split at hr
        · exact absurd hr (by simp)
        split at hr
        · exact absurd hr (by simp)
        rw [Option.some.injEq] at hr
        rw [← hr]
        exact ⟨rfl, rfl⟩
  intro x y hx hy
  rw [hred.1] at hx
  rw [hred.2] at hy
  exact bsPpk_le hKg hx hy

theorem fressnapfParse_pos_aux (t : FressnapfTile) (r : ScrapedProduct)
    (hp : ∀ q, t.priceParsed = some q → 0 ≤ q)
    (hr : fressnapfParse t = some r) :
    0 < r.currentPrice := by
  simp only [fressnapfParse] at hr
  split at hr
  · exact absurd hr (by simp)
  split at hr
  · exact absurd hr (by simp)
  split at hr
  · exact absurd hr (by simp)
  rename_i name hname
  split at hr
  · exact absurd hr (by simp)
  split at hr
  · exact absurd hr (by simp)
  rename_i cp hcp
  split at hr
  · exact absurd hr (by simp)
  rename_i hcp0
  split at hr
  · exact absurd hr (by simp)
  rw [Option.some.injEq] at hr
  rw [← hr]
  simp only
  exact lt_of_le_of_ne (hp cp hcp) (Ne.symm (by simpa using hcp0))

theorem zooroyalConvert_pos_aux (t : ZooroyalTile) (r : ScrapedProduct)
    (hA : ∀ q, t.ariaPrice = some q → 0 ≤ q)
    (hr : zooroyalConvert t = some r) :
    0 < r.currentPrice := by
  simp only [zooroyalConvert] at hr
  split at hr
  · exact absurd hr (by simp)
  split at hr
  · exact absurd hr (by simp)
  split at hr
  · exact absurd hr (by simp)
  rename_i cp hcp
  split at hr
  · exact absurd hr (by simp)
  rename_i hcp0
  split at hr
  · exact absurd hr (by simp)
  rw [Option.some.injEq] at hr
  rw [← hr]
  simp only
  exact lt_of_le_of_ne (hA cp hcp) (Ne.symm (by simpa using hcp0))

theorem zooroyalConvert_ppk_aux (t : ZooroyalTile) (r : ScrapedProduct)
    (hA : ∀ q, t.ariaPrice = some q → 0 ≤ q ∧ IsCent q)
    (hD : ∀ d, t.badgeDiscount = some d → d < 100)
    (hr : zooroyalConvert t = some r) :
    ∀ x y, r.reducedPricePerKg = some x → r.originalPricePerKg = some y → x ≤ y := by
  simp only [zooroyalConvert] at hr
  split at hr
  · exact absurd hr (by simp)
  split at hr
  · exact absurd hr (by simp)
  split at hr
  · exact absurd hr (by simp)
  rename_i cp hcp
  split at hr
  · exact absurd hr (by simp)
  rename_i hcp0
  split at hr
  · exact absurd hr (by simp)
  rw [Option.some.injEq] at hr
  rw [← hr]
  simp only
  intro x y hx hy
  split at hx
  · rename_i hsale
    cases hbd : t.badgeDiscount with
    | none => simp only [hbd] at hsale; exact absurd hsale (by simp)
    | some d =>
      simp only [hbd] at hsale hy
      rw [if_pos hsale] at hy
      simp only [calculatePricePerKg] at hx
      split at hx
      · exact absurd hx (by simp)
      rename_i w hw
      split at hx
      · exact absurd hx (by simp)
      rename_i hw0
      rw [Option.some.injEq] at hx
      rw [hw] at hy
      simp only [calculatePricePerKg] at hy
      rw [if_neg hw0] at hy
      rw [Option.some.injEq] at hy
      obtain ⟨hcpNN, hcpC⟩ := hA cp hcp
      have hcpne : cp ≠ 0 := by simpa using hcp0
      have hcpPos : 0 < cp := lt_of_le_of_ne hcpNN (Ne.symm hcpne)
      have hd100 : d < 100 := hD d hbd
      have hf : 0 < 1 - (d : ℚ) / 100 := by
        have hdq : (d : ℚ) < 100 := by exact_mod_cast hd100
        linarith
      have hdNN : (0 : ℚ) ≤ (d : ℚ) / 100 := by positivity
      have h1 : cp ≤ cp / (1 - (d : ℚ) / 100) := by
        rw [le_div_iff₀ hf]
        nlinarith [mul_nonneg hcpNN hdNN]
      have h2 : cp ≤ round2 (cp / (1 - (d : ℚ) / 100)) := cent_le_round2 h1 hcpC
      have hwQ : 0 < (w : ℚ) / 1000 := by
        have hw' : 0 < (w : ℚ) := by exact_mod_cast Nat.pos_of_ne_zero hw0
        positivity
      have h3 : cp / ((w : ℚ) / 1000)
          ≤ round2 (cp / (1 - (d : ℚ) / 100)) / ((w : ℚ) / 1000) :=
        (div_le_div_iff_of_pos_right hwQ).mpr h2
      rw [← hx, ← hy]
      exact round2_mono h3
  · exact absurd hx (by simp)

theorem calc_mono {a b : ℚ} (hab : a ≤ b) (w : Option ℕ) :
    ∀ x y, calculatePricePerKg a w = some x →
      calculatePricePerKg b w = some y → x ≤ y := by
  intro x y hx hy
  cases w with
  | none => exact absurd hx (by simp [calculatePricePerKg])
  | some wv =>
    simp only [calculatePricePerKg] at hx hy
    by_cases h0 : wv = 0
    · rw [if_pos h0] at hx
      exact absurd hx (by simp)
    · rw [if_neg h0] at hx hy
      rw [Option.some.injEq] at hx hy
      rw [← hx, ← hy]
      have hwQ : 0 < (wv : ℚ) / 1000 := by
        have hw' : 0 < (wv : ℚ) := by exact_mod_cast Nat.pos_of_ne_zero h0
        positivity
      exact round2_mono ((div_le_div_iff_of_pos_right hwQ).mpr hab)

theorem zoo24OriginalPrice_ge (cp : ℚ) (compare : Option ℚ) :
    cp ≤ zoo24OriginalPrice cp compare := by
  cases compare with
  | none => simp [zoo24OriginalPrice]
  | some op =>
    simp only [zoo24OriginalPrice]
    by_cases hc : (op != 0 && cp < op) = true
    · rw [if_pos hc]
      have h2 := hc
      simp only [Bool.and_eq_true] at h2
      exact le_of_lt (of_decide_eq_true h2.2)
    · rw [if_neg hc]

theorem zoo24Pair_le (cp op : ℚ) (sale : Bool) (unit : Option ℚ)
    (hcp : 0 < cp) (hop : cp ≤ op)
    (hU : ∀ u, unit = some u → 0 ≤ u ∧ IsCent u) :
    (∀ x y, (zoo24Pair cp op sale unit).2 = some x →
      (zoo24Pair cp op sale unit).1 = some y → x ≤ y)
    ∧ (sale = false → (zoo24Pair cp op sale unit).2 = none) := by
  constructor
  · intro x y hx hy
    unfold zoo24Pair at hx hy
    by_cases hc : (sale && truthy unit) = true
    · rw [if_pos hc] at hx hy
      simp only at hx hy
      rw [if_pos hcp] at hy
      rw [Option.some.injEq] at hy
      obtain ⟨hxNN, hxC⟩ := hU x hx
      rw [hx] at hy
      simp only [Option.getD_some] at hy
      have hdiv : 1 ≤ op / cp := (one_le_div hcp).mpr hop
      have hmul : x ≤ x * (op / cp) := le_mul_of_one_le_right hxNN hdiv
      rw [← hy]
      exact cent_le_round2 hmul hxC
    · rw [if_neg hc] at hx
      simp only at hx
      exact absurd hx (by simp)
  · intro hs
    unfold zoo24Pair
    rw [hs]
    simp

theorem zoo24Pair2_le (cp op : ℚ) (sale : Bool) (w : Option ℕ)
    (pr : Option ℚ × Option ℚ)
    (hop : cp ≤ op)
    (hpr : ∀ x y, pr.2 = some x → pr.1 = some y → x ≤ y)
    (hsf : sale = false → pr.2 = none) :
    ∀ x y, (zoo24Pair2 cp op sale w pr).2 = some x →
      (zoo24Pair2 cp op sale w pr).1 = some y → x ≤ y := by
  intro x y hx hy
  unfold zoo24Pair2 at hx hy
  by_cases hc : (!truthy pr.1 && (w.getD 0 != 0)) = true
  · rw [if_pos hc] at hx hy
    cases sale with
    | true =>
      rw [if_pos rfl] at hx hy
      simp only at hx hy
      exact calc_mono hop w x y hx hy
    | false =>
      rw [if_neg (by simp)] at hx hy
      simp only at hx hy
      rw [hsf rfl] at hx
      exact absurd hx (by simp)
  · rw [if_neg hc] at hx hy
    exact hpr x y hx hy

theorem zoo24Parse_pos_aux (t : Zoo24Tile) (r : ScrapedProduct)
    (hS : ∀ q, t.salePrice = some q → 0 ≤ q)
    (hr : zoo24Parse t = some r) :
    0 < r.currentPrice := by
  simp only [zoo24Parse] at hr
  split at hr
  · exact absurd hr (by simp)
  split at hr
  · exact absurd hr (by simp)
  split at hr
  · exact absurd hr (by simp)
  split at hr
  · exact absurd hr (by simp)
  split at hr
  · exact absurd hr (by simp)
  rename_i cp hcp
  split at hr
  · exact absurd hr (by simp)
  rename_i hcp0
  rw [Option.some.injEq] at hr
  rw [← hr]
  simp only
  exact lt_of_le_of_ne (hS cp hcp) (Ne.symm (by simpa using hcp0))

theorem zoo24Parse_ppk_aux (t : Zoo24Tile) (r : ScrapedProduct)
    (hS : ∀ q, t.salePrice = some q → 0 ≤ q)
    (hU : ∀ u, t.unitPricePerKg = some u → 0 ≤ u ∧ IsCent u)
    (hr : zoo24Parse t = some r) :
    ∀ x y, r.reducedPricePerKg = some x → r.originalPricePerKg = some y → x ≤ y := by
  simp only [zoo24Parse] at hr
  split at hr
  · exact absurd hr (by simp)
  split at hr
  · exact absurd hr (by simp)
  split at hr
  · exact absurd hr (by simp)
  split at hr
  · exact absurd hr (by simp)
  split at hr
  · exact absurd hr (by simp)
  rename_i cp hcp
  split at hr
  · exact absurd hr (by simp)
  rename_i hcp0
  rw [Option.some.injEq] at hr
  rw [← hr]
  simp only
  intro x y hx hy
  have hcpPos : 0 < cp :=
    lt_of_le_of_ne (hS cp hcp) (Ne.symm (by simpa using hcp0))
  have hop := zoo24OriginalPrice_ge cp t.comparePrice
  have hpair := zoo24Pair_le cp (zoo24OriginalPrice cp t.comparePrice)
    (zoo24OnSale cp t.comparePrice) t.unitPricePerKg hcpPos hop hU
  exact zoo24Pair2_le cp (zoo24OriginalPrice cp t.comparePrice)
    (zoo24OnSale cp t.comparePrice) (parseWeightGrams t.name) _
    hop hpair.1 hpair.2 x y hx hy

/-- C1 counterexample: a Fressnapf tile priced 3 (struck through 4)
whose page reports 5 EUR/kg and whose name carries a 400 g weight is
emitted with `originalPricePerKg = 5` but
`reducedPricePerKg = round(3/0.4, 2) = 7.5 > 5`: the page-reported
per-kg value reflects the current price while the reduced value is
recomputed from the weight, so reduced <= original fails. -/
theorem c1_counterexample :
    fressnapfParse c1Tile = some c1Rec
    ∧ c1Rec.originalPricePerKg = some 5
    ∧ c1Rec.reducedPricePerKg = some (15 / 2)
    ∧ ¬((15 : ℚ) / 2 ≤ 5) := by
  refine ⟨by rfl, rfl, ?_, by norm_num⟩
  have hw : parseWeightGrams "Animonda Carny Rind 400 g".data = some 400 := by decide
  show calculatePricePerKg 3 (parseWeightGrams "Animonda Carny Rind 400 g".data)
      = some (15 / 2)
  rw [hw]
  simp only [calculatePricePerKg]
  rw [if_neg (by norm_num)]
  have h75 : (3 : ℚ) / (((400 : ℕ) : ℚ) / 1000) = 15 / 2 := by norm_num
  rw [h75, round2_cent_fix ⟨750, by norm_num⟩]

/-- C1 (amended): every record emitted by the four tile converters has
a strictly positive current price (given non-negative parsed inputs
and a discount of at most 100 percent; a tile without a derivable
current price yields no record), and the Site A/B, Zoo24 and Zooroyal
converters also guarantee `reducedPricePerKg <= originalPricePerKg`
whenever both are present - the Fressnapf converter guarantees only
positivity (see the counterexample). -/
theorem c1_price_invariants :
    (∀ (site : List Char) (t : BSTile) (r : ScrapedProduct),
      (∀ p ∈ t.allPrices, 0 ≤ p) →
      (∀ p ∈ t.perKgPrices, 0 ≤ p ∧ IsCent p) →
      (∀ m, t.mixpaketPrice = some m → 0 ≤ m) →
      (∀ d, t.discountPercent = some d → (d : ℚ) ≤ 100) →
      bsParse site t = some r →
      0 < r.currentPrice
      ∧ ∀ x y, r.reducedPricePerKg = some x → r.originalPricePerKg = some y → x ≤ y)
    ∧ (∀ (t : Zoo24Tile) (r : ScrapedProduct),
      (∀ q, t.salePrice = some q → 0 ≤ q) →
      (∀ u, t.unitPricePerKg = some u → 0 ≤ u ∧ IsCent u) →
      zoo24Parse t = some r →
      0 < r.currentPrice
      ∧ ∀ x y, r.reducedPricePerKg = some x → r.originalPricePerKg = some y → x ≤ y)
    ∧ (∀ (t : ZooroyalTile) (r : ScrapedProduct),
      (∀ q, t.ariaPrice = some q → 0 ≤ q ∧ IsCent q) →
      (∀ d, t.badgeDiscount = some d → d < 100) →
      zooroyalConvert t = some r →
      0 < r.currentPrice
      ∧ ∀ x y, r.reducedPricePerKg = some x → r.originalPricePerKg = some y → x ≤ y)
    ∧ (∀ (t : FressnapfTile) (r : ScrapedProduct),
      (∀ q, t.priceParsed = some q → 0 ≤ q) →
      fressnapfParse t = some r →
      0 < r.currentPrice) := by
  refine ⟨?_, ?_, ?_, ?_⟩
  · intro site t r hAll hKg hMix hDisc hr
    exact ⟨bsParse_pos_aux site t r hAll hMix hDisc hr, bsParse_ppk_aux site t r hKg hr⟩
  · intro t r hS hU hr
    exact ⟨zoo24Parse_pos_aux t r hS hr, zoo24Parse_ppk_aux t r hS hU hr⟩
  · intro t r hA hD hr
    exact ⟨zooroyalConvert_pos_aux t r (fun q hq => (hA q hq).1) hr,
           zooroyalConvert_ppk_aux t r hA hD hr⟩
  · intro t r hp hr
    exact fressnapfParse_pos_aux t r hp hr

/-- C1 witness: the amended theorem applied to one concrete tile per
adapter. -/
theorem c1_price_invariants_witness :
    (0 < c1wBRec.currentPrice
      ∧ ∀ x y, c1wBRec.reducedPricePerKg = some x →
          c1wBRec.originalPricePerKg = some y → x ≤ y)
    ∧ (0 < c1w24Rec.currentPrice
      ∧ ∀ x y, c1w24Rec.reducedPricePerKg = some x →
          c1w24Rec.originalPricePerKg = some y → x ≤ y)
    ∧ (0 < c1wZrRec.currentPrice
      ∧ ∀ x y, c1wZrRec.reducedPricePerKg = some x →
          c1wZrRec.originalPricePerKg = some y → x ≤ y)
    ∧ 0 < c1Rec.currentPrice := by
  refine ⟨c1_price_invariants.1 ("zooplus".data) c1wB c1wBRec
      (by decide) ?_ ?_ ?_ (by rfl),
    c1_price_invariants.2.1 c1w24 c1w24Rec ?_ ?_ (by rfl),
    c1_price_invariants.2.2.1 c1wZr c1wZrRec ?_ ?_ (by rfl),
    c1_price_invariants.2.2.2 c1Tile c1Rec ?_ (by rfl)⟩
  · intro p hp
    exact absurd hp (List.not_mem_nil p)
  · intro m hm
    exact Option.noConfusion hm
  · intro d hd
    exact Option.noConfusion hd
  · intro q hq
    cases hq
    decide
  · intro u hu
    exact Option.noConfusion hu
  · intro q hq
    cases hq
    exact ⟨by decide, ⟨300, by norm_num⟩⟩
  · intro d hd
    exact Option.noConfusion hd
  · intro q hq
    cases hq
    decide
